import Mathlib

/-
Verification development for the kastore keyed-array store (src/c/kastore.c).

The C source is shallowly embedded: files are lists of byte values (Nat),
machine integers are Nat with explicit reduction modulo 2 ^ 64 at the points
where the C code performs wrapping uint64_t / size_t arithmetic on untrusted
input.  The companion header kastore.h is not part of the sources, so its
constants (sizes, magic, version numbers, mode and flag values) are modelled
from the specification document.
-/

namespace Kas

/-- Modelled from the spec: the error taxonomy of section 7.  The numeric
codes live in the missing header kastore.h; only the kinds matter here. -/
inductive KasErr where
  | generic
  | ioError
  | badMode
  | noMemory
  | badFileFormat
  | versionTooOld
  | versionTooNew
  | badType
  | duplicateKey
  | emptyKey
  | keyNotFound
deriving DecidableEq, Repr

/-- Modelled from the spec: fixed header size (64 bytes), a constant of the
format, from the missing kastore.h. -/
def KAS_HEADER_SIZE : Nat := 64

/-- Modelled from the spec: fixed item descriptor size (64 bytes), from the
missing kastore.h. -/
def KAS_ITEM_DESCRIPTOR_SIZE : Nat := 64

/-- Modelled from the spec: arrays are aligned to 8 bytes. -/
def KAS_ARRAY_ALIGN : Nat := 8

/-- Number of value types; the type tags are 0..7 (spec section 3). -/
def KAS_NUM_TYPES : Nat := 8

/-- Modelled from the spec: the distinct 8-byte magic sequence of the format,
from the missing kastore.h. -/
def KAS_MAGIC : List Nat := [137, 75, 65, 83, 13, 10, 26, 10]

/-- Modelled from the spec: current file format major version, from the
missing kastore.h. -/
def KAS_FILE_VERSION_MAJOR : Nat := 1

/-- Modelled from the spec: current file format minor version, from the
missing kastore.h. -/
def KAS_FILE_VERSION_MINOR : Nat := 0

/-- Modelled from the spec: mode constant for a store opened for reading,
from the missing kastore.h.  A freshly zeroed store has mode 0, which is
neither KAS_READ nor KAS_WRITE. -/
def KAS_READ : Nat := 1

/-- Modelled from the spec: mode constant for a store opened for writing,
from the missing kastore.h. -/
def KAS_WRITE : Nat := 2

/-- Modelled from the spec: the only defined open flag, disabling memory
mapping on the read side, from the missing kastore.h. -/
def KAS_NO_MMAP : Nat := 1

/-- Element width of each type tag; the C table is (1, 1, 4, 4, 8, 8, 4, 8).
The C function asserts type < KAS_NUM_TYPES; the default branch is never
reached on checked paths. -/
def type_size (t : Nat) : Nat := [1, 1, 4, 4, 8, 8, 4, 8].getD t 1

/-- Reduction modulo 2 ^ 64: the wrap-around of C uint64_t / size_t
arithmetic on a 64-bit platform. -/
def m64 (x : Nat) : Nat := x % 2 ^ 64

/-- One in-memory item (kaitem_t).  The key and the array payload are byte
lists; key_len and array_len are the separately stored length fields of the
C struct (key_len in bytes, array_len in elements). -/
structure Kaitem where
  type : Nat := 0
  key : List Nat := []
  key_len : Nat := 0
  array : List Nat := []
  array_len : Nat := 0
  key_start : Nat := 0
  array_start : Nat := 0
deriving DecidableEq, Repr

/-- Sign-valued comparison of two byte lists of equal conceptual length,
the model of memcmp over the common prefix: the C call site passes
min(key_len_a, key_len_b), which is the point where one list runs out. -/
def byteCmp : List Nat → List Nat → Int
  | [], _ => 0
  | _, [] => 0
  | a :: as, b :: bs =>
    if a < b then -1 else if b < a then 1 else byteCmp as bs

/-- compare_items from the C source: memcmp over the common prefix of the
keys, ties broken by comparing the key lengths. -/
def compare_items (a b : Kaitem) : Int :=
  let c := byteCmp a.key b.key
  if c = 0 then
    (if b.key.length < a.key.length then (1 : Int) else 0)
      - (if a.key.length < b.key.length then (1 : Int) else 0)
  else c

/-- Boolean ordering derived from compare_items, used to model qsort. -/
def itemLe (a b : Kaitem) : Bool := compare_items a b ≤ 0

/-- Reference three-valued lexicographic comparison of byte lists: a strict
prefix orders first.  compare_items coincides with this comparison. -/
def keyCmp : List Nat → List Nat → Int
  | [], [] => 0
  | [], _ :: _ => -1
  | _ :: _, [] => 1
  | a :: as, b :: bs =>
    if a < b then -1 else if b < a then 1 else keyCmp as bs

theorem keyCmp_nil_left (b : List Nat) : keyCmp [] b = 0 - (if 0 < b.length then (1 : Int) else 0) := by
  cases b <;> simp [keyCmp]

theorem compare_items_eq_keyCmp (a b : Kaitem) :
    compare_items a b = keyCmp a.key b.key := by
  unfold compare_items
  generalize a.key = x
  generalize b.key = y
  induction x generalizing y with
  | nil =>
    cases y <;> simp [byteCmp, keyCmp]
  | cons xa xs ih =>
    cases y with
    | nil => simp [byteCmp, keyCmp]
    | cons yb ys =>
      by_cases h1 : xa < yb
      · simp [byteCmp, keyCmp, h1]
      · by_cases h2 : yb < xa
        · simp [byteCmp, keyCmp, h1, h2]
        · have := ih ys
          simp only [byteCmp, keyCmp, h1, h2, if_false, List.length_cons] at *
          simpa using this

theorem keyCmp_eq_zero_iff (a b : List Nat) : keyCmp a b = 0 ↔ a = b := by
  induction a generalizing b with
  | nil => cases b <;> simp [keyCmp]
  | cons x xs ih =>
    cases b with
    | nil => simp [keyCmp]
    | cons y ys =>
      by_cases h1 : x < y
      · simp [keyCmp, h1]
        omega
      · by_cases h2 : y < x
        · simp [keyCmp, h1, h2]
          omega
        · have hxy : x = y := by omega
          simp [keyCmp, h1, h2, hxy, ih]

theorem keyCmp_swap (a b : List Nat) : keyCmp a b = -keyCmp b a := by
  induction a generalizing b with
  | nil => cases b <;> simp [keyCmp]
  | cons x xs ih =>
    cases b with
    | nil => simp [keyCmp]
    | cons y ys =>
      by_cases h1 : x < y
      · have h2 : ¬ y < x := by omega
        simp [keyCmp, h1, h2]
      · by_cases h2 : y < x
        · simp [keyCmp, h1, h2]
        · simp [keyCmp, h1, h2, ih]

theorem keyCmp_values (a b : List Nat) :
    keyCmp a b = -1 ∨ keyCmp a b = 0 ∨ keyCmp a b = 1 := by
  induction a generalizing b with
  | nil => cases b <;> simp [keyCmp]
  | cons x xs ih =>
    cases b with
    | nil => simp [keyCmp]
    | cons y ys =>
      by_cases h1 : x < y
      · simp [keyCmp, h1]
      · by_cases h2 : y < x
        · simp [keyCmp, h1, h2]
        · simpa [keyCmp, h1, h2] using ih ys

theorem keyCmp_trans {a b c : List Nat} (hab : keyCmp a b ≤ 0) (hbc : keyCmp b c ≤ 0) :
    keyCmp a c ≤ 0 := by
  induction a generalizing b c with
  | nil => cases c <;> simp [keyCmp]
  | cons x xs ih =>
    cases b with
    | nil =>
      cases c with
      | nil => simp [keyCmp] at hab
      | cons z zs => simp [keyCmp] at hab
    | cons y ys =>
      cases c with
      | nil => simp [keyCmp] at hbc
      | cons z zs =>
        by_cases hxy1 : x < y
        · -- x < y and y ≤ z, so x < z
          have hyz : y ≤ z := by
            by_contra hlt
            have h1 : ¬ y < z := by omega
            have h2 : z < y := by omega
            simp [keyCmp, h1, h2] at hbc
          have hxz1 : x < z := by omega
          simp [keyCmp, hxz1]
        · by_cases hxy2 : y < x
          · simp [keyCmp, hxy1, hxy2] at hab
          · have hxy : x = y := by omega
            subst hxy
            by_cases hyz1 : x < z
            · simp [keyCmp, hyz1]
            · by_cases hyz2 : z < x
              · simp [keyCmp, hyz1, hyz2] at hbc
              · have hyz : x = z := by omega
                subst hyz
                simp only [keyCmp, hxy1, hxy2, if_false, lt_self_iff_false] at hab hbc ⊢
                exact ih hab hbc

theorem itemLe_total (a b : Kaitem) : (itemLe a b || itemLe b a) = true := by
  simp only [itemLe, compare_items_eq_keyCmp, Bool.or_eq_true, decide_eq_true_eq]
  have h := keyCmp_swap a.key b.key
  rcases keyCmp_values a.key b.key with h1 | h1 | h1 <;> omega

theorem itemLe_trans (a b c : Kaitem) (hab : itemLe a b = true) (hbc : itemLe b c = true) :
    itemLe a c = true := by
  simp only [itemLe, compare_items_eq_keyCmp, decide_eq_true_eq] at *
  exact keyCmp_trans hab hbc

theorem compare_items_eq_zero_iff (a b : Kaitem) :
    compare_items a b = 0 ↔ a.key = b.key := by
  rw [compare_items_eq_keyCmp, keyCmp_eq_zero_iff]

/-- The kastore_t state.  The items pointer is an Option so that a NULL
pointer (freshly zeroed store) is distinguished from an empty allocation;
file_open models whether the FILE handle is non-NULL and read_buffer the
backing buffer pointer of a read-mode store. -/
structure Kastore where
  mode : Nat := 0
  flags : Nat := 0
  file_version : Nat × Nat := (0, 0)
  file_size : Nat := 0
  file_open : Bool := false
  items : Option (List Kaitem) := none
  read_buffer : Option (List Nat) := none
deriving DecidableEq, Repr

/-- The item list of a store; a NULL pointer holds no items. -/
def Kastore.itemsL (s : Kastore) : List Kaitem := s.items.getD []

/-- kastore_put.  The type parameter is a C int, checked for range before
being stored; the key is copied (key_len bytes, here the list itself); the
array payload is borrowed with its element count.  On the duplicate-key path
the C code appends the item and then removes it again, so the store is left
with its original item list.  Allocation failures are not modelled. -/
def kastore_put (s : Kastore) (key : List Nat) (array : List Nat)
    (array_len : Nat) (type : Int) : Option KasErr × Kastore :=
  if type < 0 ∨ (KAS_NUM_TYPES : Int) ≤ type then (some .badType, s)
  else if key.length = 0 then (some .emptyKey, s)
  else
    let new_item : Kaitem :=
      { type := type.toNat, key := key, key_len := key.length,
        array := array, array_len := array_len }
    if s.itemsL.any (fun it => compare_items new_item it = 0) then
      (some .duplicateKey, s)
    else
      (none, { s with items := some (s.itemsL ++ [new_item]) })

/-- Little-endian encoding of x into w bytes; encodes x modulo 256 ^ w,
which is exactly the truncating integer cast of the C code. -/
def leBytes : Nat → Nat → List Nat
  | 0, _ => []
  | w + 1, x => x % 256 :: leBytes w (x / 256)

/-- Little-endian value of a byte list.  Each entry is reduced modulo 256,
so that an arbitrary Nat list is interpreted the way the C code sees its
bytes. -/
def leVal : List Nat → Nat
  | [] => 0
  | b :: bs => b % 256 + 256 * leVal bs

/-- The contiguous slice of len bytes starting at position pos. -/
def sub (l : List Nat) (pos len : Nat) : List Nat := (l.drop pos).take len

theorem leBytes_length (w x : Nat) : (leBytes w x).length = w := by
  induction w generalizing x with
  | zero => rfl
  | succ n ih => simp [leBytes, ih]

theorem leBytes_lt (w x : Nat) : ∀ b ∈ leBytes w x, b < 256 := by
  induction w generalizing x with
  | zero => simp [leBytes]
  | succ n ih =>
    intro b hb
    simp only [leBytes, List.mem_cons] at hb
    rcases hb with h | h
    · omega
    · exact ih _ b h

theorem leVal_leBytes (w x : Nat) : leVal (leBytes w x) = x % 256 ^ w := by
  induction w generalizing x with
  | zero => simp [leBytes, leVal, Nat.mod_one]
  | succ n ih =>
    have hm : x % 256 % 256 = x % 256 := Nat.mod_mod_of_dvd x (dvd_refl 256)
    have hq : x = 256 * (x / 256) + x % 256 := (Nat.div_add_mod x 256).symm
    have hd : x / 256 = 256 ^ n * (x / 256 / 256 ^ n) + x / 256 % 256 ^ n :=
      (Nat.div_add_mod _ _).symm
    have hsz : 256 ^ (n + 1) = 256 * 256 ^ n := by rw [pow_succ]; ring
    have hlt : x % 256 + 256 * (x / 256 % 256 ^ n) < 256 * 256 ^ n := by
      have h1 : x % 256 < 256 := Nat.mod_lt _ (by norm_num)
      have h2 : x / 256 % 256 ^ n < 256 ^ n :=
        Nat.mod_lt _ (Nat.pos_pow_of_pos n (by norm_num))
      omega
    have hmod : x % (256 * 256 ^ n) = x % 256 + 256 * (x / 256 % 256 ^ n) := by
      conv_lhs => rw [hq]
      conv_lhs => rw [hd]
      rw [Nat.mul_add, ← Nat.mul_assoc, Nat.add_assoc, Nat.mul_add_mod, Nat.add_comm]
      exact Nat.mod_eq_of_lt hlt
    simp only [leBytes, leVal, ih, hm, hsz, hmod]

theorem leVal_lt (l : List Nat) : leVal l < 256 ^ l.length := by
  induction l with
  | nil => simp [leVal]
  | cons b bs ih =>
    have hb : b % 256 < 256 := Nat.mod_lt _ (by norm_num)
    have h2 : 256 ^ (bs.length + 1) = 256 * 256 ^ bs.length := by rw [pow_succ]; ring
    simp only [leVal, List.length_cons, h2]
    omega

theorem sub_length_le (l : List Nat) (pos len : Nat) : (sub l pos len).length ≤ len := by
  simp [sub]

theorem sub_append_exact (pre mid post : List Nat) (pos : Nat) (h : pre.length = pos) :
    sub (pre ++ (mid ++ post)) pos mid.length = mid := by
  subst h
  simp only [sub, List.drop_left]
  exact List.take_left mid post

theorem sub_of_agree_drop (f g : List Nat) (cut pos len : Nat)
    (hagree : f.drop cut = g.drop cut) (hpos : cut ≤ pos) :
    sub f pos len = sub g pos len := by
  have : f.drop pos = g.drop pos := by
    have h1 : f.drop pos = (f.drop cut).drop (pos - cut) := by
      rw [List.drop_drop]
      congr 1
      omega
    have h2 : g.drop pos = (g.drop cut).drop (pos - cut) := by
      rw [List.drop_drop]
      congr 1
      omega
    rw [h1, h2, hagree]
  simp [sub, this]

theorem sub_take_of_le (f : List Nat) (k pos len : Nat) (h : pos + len ≤ k) :
    sub (f.take k) pos len = sub f pos len := by
  simp only [sub, List.drop_take]
  rw [List.take_take]
  congr 1
  omega

theorem m64_add_m64 (a b : Nat) : m64 (a + m64 b) = m64 (a + b) := by
  unfold m64
  conv_lhs => rw [Nat.add_mod]
  rw [Nat.mod_mod_of_dvd b (dvd_refl _), ← Nat.add_mod]

theorem m64_of_lt {x : Nat} (h : x < 2 ^ 64) : m64 x = x := Nat.mod_eq_of_lt h

/-- Round an offset up to the next multiple of KAS_ARRAY_ALIGN, as done by
the remainder test of kastore_pack_items.  The size_t arithmetic of the C
code cannot wrap here for any store that fits in memory, so the packer is
embedded over plain Nat. -/
def alignUp (off : Nat) : Nat :=
  if off % KAS_ARRAY_ALIGN = 0 then off else off + (KAS_ARRAY_ALIGN - off % KAS_ARRAY_ALIGN)

/-- First loop of kastore_pack_items: assign key_start offsets, keys packed
tightly from the given start offset. -/
def packKeys : Nat → List Kaitem → List Kaitem
  | _, [] => []
  | off, it :: rest => { it with key_start := off } :: packKeys (off + it.key_len) rest

/-- Second loop of kastore_pack_items: assign aligned array_start offsets;
also returns the final offset, which becomes file_size. -/
def packArrays : Nat → List Kaitem → List Kaitem × Nat
  | off, [] => ([], off)
  | off, it :: rest =>
    let s := alignUp off
    let (ps, fin) := packArrays (s + it.array_len * type_size it.type) rest
    ({ it with array_start := s } :: ps, fin)

/-- Offset reached after packing all keys from the given start offset. -/
def keysEnd (off : Nat) (l : List Kaitem) : Nat := off + (l.map (·.key_len)).sum

/-- kastore_pack_items: compute key and array offsets for the (sorted) item
list and the resulting file size. -/
def kastore_pack_items (items : List Kaitem) : List Kaitem × Nat :=
  let start := KAS_HEADER_SIZE + items.length * KAS_ITEM_DESCRIPTOR_SIZE
  let ks := packKeys start items
  packArrays (keysEnd start items) ks

/-- kastore_write_header: the 64 header bytes.  The item count is written as
a u32 and the file size as a u64, the truncating casts of the C code being
the modulus built into leBytes. -/
def headerBytes (num_items file_size : Nat) : List Nat :=
  KAS_MAGIC ++ leBytes 2 KAS_FILE_VERSION_MAJOR ++ leBytes 2 KAS_FILE_VERSION_MINOR
    ++ leBytes 4 num_items ++ leBytes 8 file_size ++ List.replicate 40 0

/-- kastore_write_descriptors: the 64 descriptor bytes of one item. -/
def descriptorBytes (it : Kaitem) : List Nat :=
  it.type % 256 :: List.replicate 7 0
    ++ leBytes 8 it.key_start ++ leBytes 8 it.key_len
    ++ leBytes 8 it.array_start ++ leBytes 8 it.array_len
    ++ List.replicate 24 0

/-- Array region emitted by kastore_write_data: for each item, zero padding
up to its array_start, then array_len times type_size payload bytes from the
borrowed array. -/
def arraysBytes : Nat → List Kaitem → List Nat
  | _, [] => []
  | off, it :: rest =>
    let size := it.array_len * type_size it.type
    List.replicate (it.array_start - off) 0 ++ it.array.take size
      ++ arraysBytes (it.array_start + size) rest

/-- The full serialized file of a packed item list: header, descriptors,
tightly packed keys, aligned arrays. -/
def fileBytes (ps : List Kaitem) (fsize : Nat) : List Nat :=
  let start := KAS_HEADER_SIZE + ps.length * KAS_ITEM_DESCRIPTOR_SIZE
  headerBytes ps.length fsize ++ (ps.map descriptorBytes).flatten
    ++ (ps.map (·.key)).flatten ++ arraysBytes (keysEnd start ps) ps

/-- kastore_write_file: sort the items (qsort with compare_items, modelled
by mergeSort, which agrees with any comparison sort once keys are distinct),
pack them, and emit header, descriptors, keys and arrays. -/
def kastore_write_file (items : List Kaitem) : List Nat :=
  let sorted := items.mergeSort itemLe
  let (ps, fsize) := kastore_pack_items sorted
  fileBytes ps fsize

/-- Resource actions taken by kastore_close, so that a no-op close is
distinguishable: the flushed file bytes if a write-mode flush happened, and
which releases were performed. -/
structure CloseResult where
  ret : Option KasErr
  final : Kastore
  flushed : Option (List Nat)
  freed_items : Bool
  unmapped : Bool
  freed_buffer : Bool
  closed_file : Bool
deriving DecidableEq, Repr

/-- kastore_close: flush in write mode when a file is open, free item keys
and the item array, release the backing buffer (munmap when the no-mmap flag
is clear, free otherwise), close the file, and zero the struct.  I/O and
allocation failures are not modelled, so the result code is success. -/
def kastore_close (s : Kastore) : CloseResult :=
  let flushed :=
    if s.mode = KAS_WRITE ∧ s.file_open then some (kastore_write_file s.itemsL) else none
  { ret := none
    final := {}
    flushed := flushed
    freed_items := s.items.isSome
    unmapped := (s.flags &&& KAS_NO_MMAP == 0) && s.read_buffer.isSome
    freed_buffer := (s.flags &&& KAS_NO_MMAP != 0) && s.read_buffer.isSome
    closed_file := s.file_open }

/-- The C condition controlling the mmap branch of kastore_read is written
(!self->flags & KAS_NO_MMAP): logical negation binds before the bitwise and,
so the left operand is 1 when flags is 0 and 0 otherwise. -/
def cBoolNot (flags : Nat) : Nat := if flags = 0 then 1 else 0

/-- The branch test of kastore_read, exactly as the C parses it. -/
def mmapGate (flags : Nat) : Bool := cBoolNot flags &&& KAS_NO_MMAP ≠ 0

/-- Which kind of backing buffer a read-mode open produced. -/
inductive Backing where
  | mmapped
  | heap
deriving DecidableEq, Repr

/-- kastore_read_header on a file given as a byte list.  A short read hits
end of file, which kastore_get_read_io_error reports as a format error; the
magic bytes are compared as bytes; the version gate checks only the major
number; finally file_size must cover at least the header.  Returns
(major, minor, num_items, file_size). -/
def kastore_read_header (f : List Nat) : Except KasErr (Nat × Nat × Nat × Nat) :=
  if f.length < KAS_HEADER_SIZE then .error .badFileFormat
  else if (sub f 0 8).map (· % 256) ≠ KAS_MAGIC then .error .badFileFormat
  else
    let major := leVal (sub f 8 2)
    let minor := leVal (sub f 10 2)
    let num_items := leVal (sub f 12 4)
    let fsize := leVal (sub f 16 8)
    if major < KAS_FILE_VERSION_MAJOR then .error .versionTooOld
    else if KAS_FILE_VERSION_MAJOR < major then .error .versionTooNew
    else if fsize < KAS_HEADER_SIZE then .error .badFileFormat
    else .ok (major, minor, num_items, fsize)

/-- kastore_mmap_file: stat the file and require its size to equal the
header's file_size, then map it; the buffer is the whole file.  Mapping
failures (an I/O condition) are not modelled. -/
def kastore_mmap_file (f : List Nat) (fsize : Nat) : Except KasErr (List Nat) :=
  if f.length ≠ fsize then .error .badFileFormat else .ok f

/-- kastore_read_file: seek to the start and read file_size bytes into a
heap buffer; a short read hits end of file, reported as a format error.
Trailing bytes beyond file_size are ignored. -/
def kastore_read_file (f : List Nat) (fsize : Nat) : Except KasErr (List Nat) :=
  if f.length < fsize then .error .badFileFormat else .ok (f.take fsize)

/-- The five fields memcpy'd out of one 64-byte descriptor at the given
offset of the read buffer. -/
structure RawDescriptor where
  type : Nat
  key_start : Nat
  key_len : Nat
  array_start : Nat
  array_len : Nat
deriving DecidableEq, Repr

/-- Decode the descriptor fields at a descriptor offset. -/
def parseDescriptor (buf : List Nat) (descOff : Nat) : RawDescriptor :=
  { type := leVal (sub buf descOff 1)
    key_start := leVal (sub buf (descOff + 8) 8)
    key_len := leVal (sub buf (descOff + 16) 8)
    array_start := leVal (sub buf (descOff + 24) 8)
    array_len := leVal (sub buf (descOff + 32) 8) }

/-- First loop of kastore_read_descriptors: parse and validate each
descriptor.  The two bound checks are the uint64 comparisons of the C code,
so the sums and the product wrap modulo 2 ^ 64 before being compared with
file_size.  Each accepted item records its key and array as slices of the
read buffer together with the raw offsets and lengths. -/
def readItemsLoop (buf : List Nat) (fsize : Nat) : Nat → Nat → Except KasErr (List Kaitem)
  | _, 0 => .ok []
  | descOff, n + 1 =>
    let d := parseDescriptor buf descOff
    if KAS_NUM_TYPES ≤ d.type then .error .badType
    else if fsize < m64 (d.key_start + d.key_len) then .error .badFileFormat
    else if fsize < m64 (d.array_start + m64 (d.array_len * type_size d.type)) then
      .error .badFileFormat
    else
      match readItemsLoop buf fsize (descOff + KAS_ITEM_DESCRIPTOR_SIZE) n with
      | .error e => .error e
      | .ok rest =>
        .ok ({ type := d.type, key := sub buf d.key_start d.key_len, key_len := d.key_len,
               array := sub buf d.array_start (d.array_len * type_size d.type),
               array_len := d.array_len,
               key_start := d.key_start, array_start := d.array_start } :: rest)

/-- Second loop of kastore_read_descriptors: keys must be packed tightly
starting right after the descriptors.  The offset accumulates in size_t, so
it wraps modulo 2 ^ 64.  Returns the final offset. -/
def keyWalk : Nat → List Kaitem → Except KasErr Nat
  | off, [] => .ok off
  | off, it :: rest =>
    if it.key_start ≠ off then .error .badFileFormat
    else keyWalk (m64 (off + it.key_len)) rest

/-- Third loop of kastore_read_descriptors: arrays must be 8-byte aligned
and adjacent, with the same wrapping size_t offset arithmetic. -/
def arrayWalk : Nat → List Kaitem → Except KasErr Nat
  | off, [] => .ok off
  | off, it :: rest =>
    let r := off % KAS_ARRAY_ALIGN
    let off2 := if r = 0 then off else m64 (off + (KAS_ARRAY_ALIGN - r))
    if it.array_start ≠ off2 then .error .badFileFormat
    else arrayWalk (m64 (off2 + it.array_len * type_size it.type)) rest

/-- The packer-walk replay of kastore_read_descriptors over the parsed
items: keys first, then aligned arrays. -/
def descWalkCheck (num_items : Nat) (items : List Kaitem) : Except KasErr (List Kaitem) :=
  match keyWalk (KAS_HEADER_SIZE + num_items * KAS_ITEM_DESCRIPTOR_SIZE) items with
  | .error e => .error e
  | .ok off =>
    match arrayWalk off items with
    | .error e => .error e
    | .ok _ => .ok items

/-- kastore_read_descriptors: check that the descriptor region fits in
file_size (num_items is a u32 value, so this size_t sum cannot wrap), parse
and validate the descriptors, then replay the packer walk over the parsed
offsets. -/
def kastore_read_descriptors (buf : List Nat) (num_items fsize : Nat) :
    Except KasErr (List Kaitem) :=
  if fsize < KAS_HEADER_SIZE + num_items * KAS_ITEM_DESCRIPTOR_SIZE then .error .badFileFormat
  else
    match readItemsLoop buf fsize KAS_HEADER_SIZE num_items with
    | .error e => .error e
    | .ok items => descWalkCheck num_items items

/-- The observable result of a successful read-mode open. -/
structure ReadResult where
  file_version : Nat × Nat
  num_items : Nat
  file_size : Nat
  backing : Backing
  buffer : List Nat
  items : List Kaitem
deriving DecidableEq, Repr

/-- The buffer-materialization step of kastore_read: the branch guarded by
the (defective) mmap gate. -/
def kastore_read_buffer (flags : Nat) (f : List Nat) (fsize : Nat) :
    Except KasErr (Backing × List Nat) :=
  if mmapGate flags then
    (kastore_mmap_file f fsize).map (fun b => (Backing.mmapped, b))
  else
    (kastore_read_file f fsize).map (fun b => (Backing.heap, b))

/-- kastore_read: parse the header, materialize the backing buffer through
the mmap gate, and parse the descriptors when there are items. -/
def kastore_read (flags : Nat) (f : List Nat) : Except KasErr ReadResult :=
  match kastore_read_header f with
  | .error e => .error e
  | .ok (major, minor, n, fsize) =>
    match kastore_read_buffer flags f fsize with
    | .error e => .error e
    | .ok (backing, buf) =>
      match (if 0 < n then kastore_read_descriptors buf n fsize else .ok []) with
      | .error e => .error e
      | .ok items =>
        .ok { file_version := (major, minor), num_items := n, file_size := fsize,
              backing := backing, buffer := buf, items := items }

/-- kastore_get: bsearch over the item array with compare_items, modelled by
its libc contract of returning a matching element of a sorted array (find?
returns the first match, the unique one once keys are distinct).  A miss is
KeyNotFound; the hit returns the borrowed array view, its element count and
its type.  The mode of the store is not consulted. -/
def kastore_get (s : Kastore) (key : List Nat) : Except KasErr (List Nat × Nat × Nat) :=
  let search : Kaitem := { key := key, key_len := key.length }
  match s.itemsL.find? (fun it => compare_items search it = 0) with
  | none => .error .keyNotFound
  | some it => .ok (it.array, it.array_len, it.type)

/-- The items of a read result, empty on error. -/
def readItems (e : Except KasErr ReadResult) : List Kaitem :=
  match e with
  | .ok r => r.items
  | .error _ => []

/-- A read-mode store as kastore_open leaves it after a successful read. -/
def openedStore (flags : Nat) (r : ReadResult) : Kastore :=
  { mode := KAS_READ, flags := flags, file_version := r.file_version,
    file_size := r.file_size, file_open := true, items := some r.items,
    read_buffer := some r.buffer }

/-- Number of payload bytes of an item. -/
def itemSize (it : Kaitem) : Nat := it.array_len * type_size it.type

/-- The fields of an item that the packer does not touch. -/
def Kaitem.core (it : Kaitem) : Nat × List Nat × Nat × List Nat × Nat :=
  (it.type, it.key, it.key_len, it.array, it.array_len)

/-- Well-formedness of an item as established by kastore_put: a valid type,
a non-empty key whose stored length is its byte count, a payload of exactly
array_len times the element width, and byte-ranged contents. -/
structure WFItem (it : Kaitem) : Prop where
  type_lt : it.type < KAS_NUM_TYPES
  key_ne : it.key ≠ []
  key_len_eq : it.key_len = it.key.length
  array_len_eq : it.array.length = itemSize it
  key_bytes : ∀ b ∈ it.key, b < 256
  array_bytes : ∀ b ∈ it.array, b < 256

/-- Keys are packed tightly from the given offset. -/
def keyStartsOk : Nat → List Kaitem → Prop
  | _, [] => True
  | off, it :: rest => it.key_start = off ∧ keyStartsOk (off + it.key_len) rest

/-- Arrays are packed adjacently from the given offset, each start aligned. -/
def arrayStartsOk : Nat → List Kaitem → Prop
  | _, [] => True
  | off, it :: rest =>
    it.array_start = alignUp off ∧ arrayStartsOk (alignUp off + itemSize it) rest

/-- Final offset of the array-packing walk. -/
def arraysEnd : Nat → List Kaitem → Nat
  | off, [] => off
  | off, it :: rest => arraysEnd (alignUp off + itemSize it) rest

theorem alignUp_ge (off : Nat) : off ≤ alignUp off := by
  unfold alignUp
  split <;> omega

theorem alignUp_le (off : Nat) : alignUp off ≤ off + 7 := by
  unfold alignUp KAS_ARRAY_ALIGN
  by_cases h : off % 8 = 0
  · simp [h]
  · simp only [h, if_false]
    omega

theorem alignUp_mod (off : Nat) : alignUp off % KAS_ARRAY_ALIGN = 0 := by
  unfold alignUp KAS_ARRAY_ALIGN
  by_cases h : off % 8 = 0
  · simp [h]
  · simp only [h, if_false]
    omega

theorem keysEnd_cons (off : Nat) (it : Kaitem) (rest : List Kaitem) :
    keysEnd off (it :: rest) = keysEnd (off + it.key_len) rest := by
  simp [keysEnd]
  omega

theorem keysEnd_ge (off : Nat) (l : List Kaitem) : off ≤ keysEnd off l := by
  simp [keysEnd]

theorem arraysEnd_ge (off : Nat) (l : List Kaitem) : off ≤ arraysEnd off l := by
  induction l generalizing off with
  | nil => simp [arraysEnd]
  | cons it rest ih =>
    have h1 := alignUp_ge off
    have h2 := ih (alignUp off + itemSize it)
    simp only [arraysEnd]
    omega

theorem packKeys_length (off : Nat) (l : List Kaitem) :
    (packKeys off l).length = l.length := by
  induction l generalizing off with
  | nil => rfl
  | cons it rest ih => simp [packKeys, ih]

theorem packKeys_core (off : Nat) (l : List Kaitem) :
    (packKeys off l).map Kaitem.core = l.map Kaitem.core := by
  induction l generalizing off with
  | nil => rfl
  | cons it rest ih => simp [packKeys, ih, Kaitem.core]

theorem packKeys_keyStartsOk (off : Nat) (l : List Kaitem) :
    keyStartsOk off (packKeys off l) := by
  induction l generalizing off with
  | nil => trivial
  | cons it rest ih => exact ⟨rfl, ih (off + it.key_len)⟩

theorem packArrays_fst_length (off : Nat) (l : List Kaitem) :
    ((packArrays off l).1).length = l.length := by
  induction l generalizing off with
  | nil => rfl
  | cons it rest ih => simp [packArrays, ih]

theorem packArrays_fst_core (off : Nat) (l : List Kaitem) :
    ((packArrays off l).1).map Kaitem.core = l.map Kaitem.core := by
  induction l generalizing off with
  | nil => rfl
  | cons it rest ih => simp [packArrays, ih, Kaitem.core]

theorem packArrays_keyStartsOk (off off2 : Nat) (l : List Kaitem)
    (h : keyStartsOk off2 l) : keyStartsOk off2 ((packArrays off l).1) := by
  induction l generalizing off off2 with
  | nil => trivial
  | cons it rest ih =>
    obtain ⟨h1, h2⟩ := h
    exact ⟨h1, ih _ _ h2⟩

theorem packArrays_arrayStartsOk (off : Nat) (l : List Kaitem) :
    arrayStartsOk off ((packArrays off l).1) := by
  induction l generalizing off with
  | nil => trivial
  | cons it rest ih =>
    refine ⟨rfl, ?_⟩
    have h : itemSize { it with array_start := alignUp off } = itemSize it := rfl
    simpa [h] using ih (alignUp off + itemSize it)

theorem packArrays_snd (off : Nat) (l : List Kaitem) :
    (packArrays off l).2 = arraysEnd off l := by
  induction l generalizing off with
  | nil => rfl
  | cons it rest ih => simp [packArrays, arraysEnd, ih, itemSize]

theorem keyStartsOk_bounds (off : Nat) (l : List Kaitem) (h : keyStartsOk off l) :
    ∀ it ∈ l, off ≤ it.key_start ∧ it.key_start + it.key_len ≤ keysEnd off l := by
  induction l generalizing off with
  | nil => simp
  | cons hd rest ih =>
    obtain ⟨h1, h2⟩ := h
    intro it hit
    rcases List.mem_cons.mp hit with rfl | hmem
    · refine ⟨h1.ge, ?_⟩
      rw [keysEnd_cons, h1]
      exact keysEnd_ge _ _
    · have := ih _ h2 it hmem
      rw [keysEnd_cons]
      omega

theorem arrayStartsOk_bounds (off : Nat) (l : List Kaitem) (h : arrayStartsOk off l) :
    ∀ it ∈ l, off ≤ it.array_start ∧ it.array_start + itemSize it ≤ arraysEnd off l
      ∧ it.array_start % KAS_ARRAY_ALIGN = 0 := by
  induction l generalizing off with
  | nil => simp
  | cons hd rest ih =>
    obtain ⟨h1, h2⟩ := h
    intro it hit
    rcases List.mem_cons.mp hit with rfl | hmem
    · refine ⟨h1 ▸ alignUp_ge off, ?_, h1 ▸ alignUp_mod off⟩
      have : arraysEnd off (it :: rest) = arraysEnd (alignUp off + itemSize it) rest := rfl
      rw [this, h1]
      exact arraysEnd_ge _ _
    · have hb := ih _ h2 it hmem
      have hge := alignUp_ge off
      have : arraysEnd off (hd :: rest) = arraysEnd (alignUp off + itemSize hd) rest := rfl
      rw [this]
      omega

theorem headerBytes_length (n fs : Nat) : (headerBytes n fs).length = KAS_HEADER_SIZE := by
  simp [headerBytes, leBytes_length, KAS_MAGIC, KAS_HEADER_SIZE]

theorem descriptorBytes_length (it : Kaitem) :
    (descriptorBytes it).length = KAS_ITEM_DESCRIPTOR_SIZE := by
  simp [descriptorBytes, leBytes_length, KAS_ITEM_DESCRIPTOR_SIZE]

theorem descRegion_length (l : List Kaitem) :
    ((l.map descriptorBytes).flatten).length = l.length * KAS_ITEM_DESCRIPTOR_SIZE := by
  induction l with
  | nil => simp
  | cons it rest ih =>
    simp only [List.map_cons, List.flatten_cons, List.length_append, ih,
      descriptorBytes_length, List.length_cons]
    ring

theorem keyRegion_length (l : List Kaitem) (hwf : ∀ it ∈ l, it.key_len = it.key.length) :
    ((l.map (·.key)).flatten).length = (l.map (·.key_len)).sum := by
  induction l with
  | nil => simp
  | cons it rest ih =>
    have h1 := hwf it (List.mem_cons_self it rest)
    have h2 := ih (fun x hx => hwf x (List.mem_cons_of_mem it hx))
    simp [h1, h2]

theorem arraysBytes_length (off : Nat) (l : List Kaitem) (h : arrayStartsOk off l)
    (hwf : ∀ it ∈ l, it.array.length = itemSize it) :
    (arraysBytes off l).length = arraysEnd off l - off := by
  induction l generalizing off with
  | nil => simp [arraysBytes, arraysEnd]
  | cons it rest ih =>
    obtain ⟨h1, h2⟩ := h
    have hlen := hwf it (List.mem_cons_self it rest)
    have hrec := ih _ h2 (fun x hx => hwf x (List.mem_cons_of_mem it hx))
    have hge := alignUp_ge off
    have hend := arraysEnd_ge (alignUp off + itemSize it) rest
    have hsz : it.array_len * type_size it.type = itemSize it := rfl
    have htake : (it.array.take (itemSize it)).length = itemSize it := by
      rw [List.take_of_length_le hlen.le, hlen]
    have harr : arraysEnd off (it :: rest) = arraysEnd (alignUp off + itemSize it) rest := rfl
    rw [harr]
    simp only [arraysBytes, List.length_append, List.length_replicate, hsz, htake, hrec, h1]
    omega

theorem fileBytes_length (ps : List Kaitem) (fsize : Nat)
    (_hk : keyStartsOk (KAS_HEADER_SIZE + ps.length * KAS_ITEM_DESCRIPTOR_SIZE) ps)
    (ha : arrayStartsOk (keysEnd (KAS_HEADER_SIZE + ps.length * KAS_ITEM_DESCRIPTOR_SIZE) ps) ps)
    (hfs : fsize = arraysEnd (keysEnd (KAS_HEADER_SIZE + ps.length * KAS_ITEM_DESCRIPTOR_SIZE) ps) ps)
    (hwf1 : ∀ it ∈ ps, it.key_len = it.key.length)
    (hwf2 : ∀ it ∈ ps, it.array.length = itemSize it) :
    (fileBytes ps fsize).length = fsize := by
  have hke := keysEnd_ge (KAS_HEADER_SIZE + ps.length * KAS_ITEM_DESCRIPTOR_SIZE) ps
  have hae := arraysEnd_ge (keysEnd (KAS_HEADER_SIZE + ps.length * KAS_ITEM_DESCRIPTOR_SIZE) ps) ps
  have hab := arraysBytes_length _ ps ha hwf2
  simp only [fileBytes, List.length_append, headerBytes_length, descRegion_length,
    keyRegion_length ps hwf1, hab, ← hfs]
  simp only [keysEnd] at *
  omega

theorem keys_cover (l : List Kaitem) (off : Nat) (pre post : List Nat)
    (hpre : pre.length = off) (hk : keyStartsOk off l)
    (hwf : ∀ it ∈ l, it.key_len = it.key.length) :
    ∀ it ∈ l, sub (pre ++ (l.map (·.key)).flatten ++ post) it.key_start it.key.length = it.key := by
  induction l generalizing off pre with
  | nil => simp
  | cons hd rest ih =>
    obtain ⟨h1, h2⟩ := hk
    intro it hit
    rcases List.mem_cons.mp hit with rfl | hmem
    · have : pre ++ ((it :: rest).map (·.key)).flatten ++ post
          = pre ++ (it.key ++ ((rest.map (·.key)).flatten ++ post)) := by simp
      rw [this, h1, ← hpre]
      exact sub_append_exact pre it.key _ pre.length rfl
    · have hwfh := hwf hd (List.mem_cons_self hd rest)
      have heq : pre ++ ((hd :: rest).map (·.key)).flatten ++ post
          = (pre ++ hd.key) ++ (rest.map (·.key)).flatten ++ post := by simp
      rw [heq]
      refine ih (off + hd.key_len) (pre ++ hd.key) ?_ h2 ?_ it hmem
      · simp [hpre, hwfh]
      · exact fun x hx => hwf x (List.mem_cons_of_mem hd hx)

theorem arrays_cover (l : List Kaitem) (off : Nat) (pre : List Nat)
    (hpre : pre.length = off) (ha : arrayStartsOk off l)
    (hwf : ∀ it ∈ l, it.array.length = itemSize it) :
    ∀ it ∈ l, sub (pre ++ arraysBytes off l) it.array_start (itemSize it) = it.array := by
  induction l generalizing off pre with
  | nil => simp
  | cons hd rest ih =>
    obtain ⟨h1, h2⟩ := ha
    intro it hit
    have hwfh := hwf hd (List.mem_cons_self hd rest)
    have hsz : hd.array_len * type_size hd.type = itemSize hd := rfl
    have htake : hd.array.take (itemSize hd) = hd.array := List.take_of_length_le hwfh.le
    have hge := alignUp_ge off
    rcases List.mem_cons.mp hit with rfl | hmem
    · have heq : pre ++ arraysBytes off (it :: rest)
          = (pre ++ List.replicate (it.array_start - off) 0)
            ++ (it.array ++ arraysBytes (it.array_start + itemSize it) rest) := by
        simp only [arraysBytes]
        rw [hsz, htake]
        simp [List.append_assoc]
      rw [heq]
      have hlen : (pre ++ List.replicate (it.array_start - off) 0).length = it.array_start := by
        simp [hpre]
        omega
      have := sub_append_exact (pre ++ List.replicate (it.array_start - off) 0)
        it.array (arraysBytes (it.array_start + itemSize it) rest) it.array_start hlen
      rwa [hwfh] at this
    · have heq : pre ++ arraysBytes off (hd :: rest)
          = (pre ++ (List.replicate (hd.array_start - off) 0 ++ hd.array))
            ++ arraysBytes (alignUp off + itemSize hd) rest := by
        simp only [arraysBytes]
        rw [hsz, htake, h1]
        simp [List.append_assoc]
      rw [heq]
      refine ih (alignUp off + itemSize hd) _ ?_ h2 ?_ it hmem
      · simp [hpre, h1, hwfh]
        omega
      · exact fun x hx => hwf x (List.mem_cons_of_mem hd hx)

theorem type_size_pos (t : Nat) : 1 ≤ type_size t := by
  unfold type_size
  rcases t with _|_|_|_|_|_|_|_|t <;> simp [List.getD]

theorem sub_append_skip (pre X : List Nat) (k w : Nat) :
    sub (pre ++ X) (pre.length + k) w = sub X k w := by
  simp only [sub]
  rw [← List.drop_drop, List.drop_left]

theorem leVal_leBytes8 {x : Nat} (h : x < 2 ^ 64) : leVal (leBytes 8 x) = x := by
  rw [leVal_leBytes]
  have : (256 : Nat) ^ 8 = 2 ^ 64 := by norm_num
  rw [this]
  exact Nat.mod_eq_of_lt h

theorem parseDescriptor_at (it : Kaitem) (pre post : List Nat)
    (ht : it.type < 256) (h1 : it.key_start < 2 ^ 64) (h2 : it.key_len < 2 ^ 64)
    (h3 : it.array_start < 2 ^ 64) (h4 : it.array_len < 2 ^ 64) :
    parseDescriptor (pre ++ (descriptorBytes it ++ post)) pre.length =
      { type := it.type, key_start := it.key_start, key_len := it.key_len,
        array_start := it.array_start, array_len := it.array_len } := by
  have htype : sub (descriptorBytes it ++ post) 0 1 = [it.type % 256] := by
    simp [descriptorBytes, sub]
  have hks : sub (descriptorBytes it ++ post) 8 8 = leBytes 8 it.key_start := by
    have hassoc : descriptorBytes it ++ post
        = (it.type % 256 :: List.replicate 7 0)
          ++ (leBytes 8 it.key_start
            ++ (leBytes 8 it.key_len ++ (leBytes 8 it.array_start
              ++ (leBytes 8 it.array_len ++ (List.replicate 24 0 ++ post))))) := by
      simp [descriptorBytes]
    rw [hassoc]
    have hl : (it.type % 256 :: List.replicate 7 0).length = 8 := by simp
    have h := sub_append_exact (it.type % 256 :: List.replicate 7 0)
      (leBytes 8 it.key_start)
      (leBytes 8 it.key_len ++ (leBytes 8 it.array_start
        ++ (leBytes 8 it.array_len ++ (List.replicate 24 0 ++ post)))) 8 hl
    rwa [leBytes_length] at h
  have hkl : sub (descriptorBytes it ++ post) 16 8 = leBytes 8 it.key_len := by
    have hassoc : descriptorBytes it ++ post
        = (it.type % 256 :: (List.replicate 7 0 ++ leBytes 8 it.key_start))
          ++ (leBytes 8 it.key_len ++ (leBytes 8 it.array_start
            ++ (leBytes 8 it.array_len ++ (List.replicate 24 0 ++ post)))) := by
      simp [descriptorBytes]
    rw [hassoc]
    have hl : (it.type % 256 :: (List.replicate 7 0 ++ leBytes 8 it.key_start)).length = 16 := by
      simp [leBytes_length]
    have h := sub_append_exact (it.type % 256 :: (List.replicate 7 0 ++ leBytes 8 it.key_start))
      (leBytes 8 it.key_len)
      (leBytes 8 it.array_start ++ (leBytes 8 it.array_len ++ (List.replicate 24 0 ++ post)))
      16 hl
    rwa [leBytes_length] at h
  have has : sub (descriptorBytes it ++ post) 24 8 = leBytes 8 it.array_start := by
    have hassoc : descriptorBytes it ++ post
        = (it.type % 256 :: (List.replicate 7 0 ++ leBytes 8 it.key_start ++ leBytes 8 it.key_len))
          ++ (leBytes 8 it.array_start ++ (leBytes 8 it.array_len
            ++ (List.replicate 24 0 ++ post))) := by
      simp [descriptorBytes]
    rw [hassoc]
    have hl : (it.type % 256 :: (List.replicate 7 0 ++ leBytes 8 it.key_start
        ++ leBytes 8 it.key_len)).length = 24 := by
      simp [leBytes_length]
    have h := sub_append_exact
      (it.type % 256 :: (List.replicate 7 0 ++ leBytes 8 it.key_start ++ leBytes 8 it.key_len))
      (leBytes 8 it.array_start)
      (leBytes 8 it.array_len ++ (List.replicate 24 0 ++ post)) 24 hl
    rwa [leBytes_length] at h
  have hal : sub (descriptorBytes it ++ post) 32 8 = leBytes 8 it.array_len := by
    have hassoc : descriptorBytes it ++ post
        = (it.type % 256 :: (List.replicate 7 0 ++ leBytes 8 it.key_start ++ leBytes 8 it.key_len
            ++ leBytes 8 it.array_start))
          ++ (leBytes 8 it.array_len ++ (List.replicate 24 0 ++ post)) := by
      simp [descriptorBytes]
    rw [hassoc]
    have hl : (it.type % 256 :: (List.replicate 7 0 ++ leBytes 8 it.key_start
        ++ leBytes 8 it.key_len ++ leBytes 8 it.array_start)).length = 32 := by
      simp [leBytes_length]
    have h := sub_append_exact
      (it.type % 256 :: (List.replicate 7 0 ++ leBytes 8 it.key_start ++ leBytes 8 it.key_len
        ++ leBytes 8 it.array_start))
      (leBytes 8 it.array_len) (List.replicate 24 0 ++ post) 32 hl
    rwa [leBytes_length] at h
  have s0 := sub_append_skip pre (descriptorBytes it ++ post) 0 1
  have s8 := sub_append_skip pre (descriptorBytes it ++ post) 8 8
  have s16 := sub_append_skip pre (descriptorBytes it ++ post) 16 8
  have s24 := sub_append_skip pre (descriptorBytes it ++ post) 24 8
  have s32 := sub_append_skip pre (descriptorBytes it ++ post) 32 8
  rw [Nat.add_zero] at s0
  simp only [parseDescriptor, RawDescriptor.mk.injEq, s0, s8, s16, s24, s32,
    htype, hks, hkl, has, hal]
  refine ⟨?_, ?_, ?_, ?_, ?_⟩
  · simp [leVal]
    omega
  · exact leVal_leBytes8 h1
  · exact leVal_leBytes8 h2
  · exact leVal_leBytes8 h3
  · exact leVal_leBytes8 h4

theorem readItemsLoop_ok (l : List Kaitem) (buf : List Nat) (fsize : Nat)
    (pre post : List Nat)
    (hbuf : buf = pre ++ ((l.map descriptorBytes).flatten ++ post))
    (hfs : fsize < 2 ^ 64)
    (hcheck : ∀ it ∈ l, it.type < KAS_NUM_TYPES ∧ it.key_start + it.key_len ≤ fsize
        ∧ it.array_start + itemSize it ≤ fsize)
    (hkey : ∀ it ∈ l, sub buf it.key_start it.key_len = it.key)
    (harr : ∀ it ∈ l, sub buf it.array_start (itemSize it) = it.array) :
    readItemsLoop buf fsize pre.length l.length = .ok l := by
  induction l generalizing pre with
  | nil => rfl
  | cons it rest ih =>
    obtain ⟨ht, hb1, hb2⟩ := hcheck it (List.mem_cons_self it rest)
    have hts := type_size_pos it.type
    have hsz : it.array_len * type_size it.type = itemSize it := rfl
    have hal : it.array_len ≤ itemSize it := by
      rw [itemSize]
      exact Nat.le_mul_of_pos_right _ hts
    have ht' : it.type < 256 := by
      have h8 : KAS_NUM_TYPES = 8 := rfl
      omega
    have hparse : parseDescriptor buf pre.length =
        { type := it.type, key_start := it.key_start, key_len := it.key_len,
          array_start := it.array_start, array_len := it.array_len } := by
      have hre : (List.map descriptorBytes (it :: rest)).flatten ++ post
          = descriptorBytes it ++ ((rest.map descriptorBytes).flatten ++ post) := by
        simp
      rw [hbuf, hre]
      exact parseDescriptor_at it pre _ ht' (by omega) (by omega) (by omega) (by omega)
    have hrec : readItemsLoop buf fsize (pre.length + KAS_ITEM_DESCRIPTOR_SIZE)
        rest.length = .ok rest := by
      have hlen : (pre ++ descriptorBytes it).length = pre.length + KAS_ITEM_DESCRIPTOR_SIZE := by
        simp [descriptorBytes_length]
      have hbuf2 : buf = (pre ++ descriptorBytes it) ++ ((rest.map descriptorBytes).flatten ++ post) := by
        rw [hbuf]
        simp
      have := ih (pre ++ descriptorBytes it) hbuf2
        (fun x hx => hcheck x (List.mem_cons_of_mem it hx))
        (fun x hx => hkey x (List.mem_cons_of_mem it hx))
        (fun x hx => harr x (List.mem_cons_of_mem it hx))
      rwa [hlen] at this
    show readItemsLoop buf fsize pre.length (rest.length + 1) = .ok (it :: rest)
    rw [readItemsLoop, hparse]
    have hm1 : m64 (it.key_start + it.key_len) = it.key_start + it.key_len :=
      m64_of_lt (by omega)
    have hm2 : m64 (it.array_len * type_size it.type) = it.array_len * type_size it.type := by
      refine m64_of_lt ?_
      rw [hsz]
      omega
    have hm3 : m64 (it.array_start + (it.array_len * type_size it.type))
        = it.array_start + itemSize it := by
      rw [hsz]
      exact m64_of_lt (by omega)
    simp only [hm2, hm3, hm1]
    rw [if_neg (by omega), if_neg (by omega), if_neg (by omega)]
    rw [hrec]
    show Except.ok _ = _
    rw [hsz, hkey it (List.mem_cons_self it rest), harr it (List.mem_cons_self it rest)]

theorem keyWalk_ok (l : List Kaitem) (off : Nat) (hk : keyStartsOk off l)
    (hbound : keysEnd off l < 2 ^ 64) :
    keyWalk off l = .ok (keysEnd off l) := by
  induction l generalizing off with
  | nil => simp [keyWalk, keysEnd]
  | cons it rest ih =>
    obtain ⟨h1, h2⟩ := hk
    have hge : off + it.key_len ≤ keysEnd off (it :: rest) := by
      rw [keysEnd_cons]
      exact keysEnd_ge _ _
    rw [keyWalk, if_neg (by omega), m64_of_lt (by omega), keysEnd_cons]
    exact ih _ h2 (by rwa [keysEnd_cons] at hbound)

theorem arrayWalk_ok (l : List Kaitem) (off : Nat) (ha : arrayStartsOk off l)
    (hbound : arraysEnd off l < 2 ^ 64) :
    arrayWalk off l = .ok (arraysEnd off l) := by
  induction l generalizing off with
  | nil => simp [arrayWalk, arraysEnd]
  | cons it rest ih =>
    obtain ⟨h1, h2⟩ := ha
    have hsz : it.array_len * type_size it.type = itemSize it := rfl
    have hcons : arraysEnd off (it :: rest) = arraysEnd (alignUp off + itemSize it) rest := rfl
    have hge : alignUp off + itemSize it ≤ arraysEnd off (it :: rest) := by
      rw [hcons]
      exact arraysEnd_ge _ _
    have hoff2 : (if off % KAS_ARRAY_ALIGN = 0 then off
        else m64 (off + (KAS_ARRAY_ALIGN - off % KAS_ARRAY_ALIGN))) = alignUp off := by
      by_cases h : off % KAS_ARRAY_ALIGN = 0
      · simp [h, alignUp]
      · have halign : alignUp off = off + (KAS_ARRAY_ALIGN - off % KAS_ARRAY_ALIGN) := by
          simp [alignUp, h]
        have hlt : off + (KAS_ARRAY_ALIGN - off % KAS_ARRAY_ALIGN) < 2 ^ 64 := by omega
        simp only [h, if_false, m64_of_lt hlt, halign]
    have hstep : arrayWalk off (it :: rest)
        = if it.array_start ≠ (if off % KAS_ARRAY_ALIGN = 0 then off
              else m64 (off + (KAS_ARRAY_ALIGN - off % KAS_ARRAY_ALIGN)))
          then .error .badFileFormat
          else arrayWalk (m64 ((if off % KAS_ARRAY_ALIGN = 0 then off
              else m64 (off + (KAS_ARRAY_ALIGN - off % KAS_ARRAY_ALIGN)))
            + it.array_len * type_size it.type)) rest := rfl
    rw [hstep, hoff2, if_neg (by simp [h1]), hsz, m64_of_lt (by omega), hcons]
    exact ih _ h2 (by rwa [hcons] at hbound)

theorem map_key_len_of_core {l1 l2 : List Kaitem}
    (h : l1.map Kaitem.core = l2.map Kaitem.core) :
    l1.map (·.key_len) = l2.map (·.key_len) := by
  have h2 := congrArg (List.map (fun c : Nat × List Nat × Nat × List Nat × Nat => c.2.2.1)) h
  simpa [List.map_map, Function.comp, Kaitem.core] using h2

theorem keysEnd_congr {l1 l2 : List Kaitem} (off : Nat)
    (h : l1.map Kaitem.core = l2.map Kaitem.core) :
    keysEnd off l1 = keysEnd off l2 := by
  unfold keysEnd
  rw [map_key_len_of_core h]

theorem arraysEnd_congr {l1 l2 : List Kaitem}
    (h : l1.map Kaitem.core = l2.map Kaitem.core) (off : Nat) :
    arraysEnd off l1 = arraysEnd off l2 := by
  induction l1 generalizing l2 off with
  | nil =>
    cases l2 with
    | nil => rfl
    | cons b bs => simp at h
  | cons a as ih =>
    cases l2 with
    | nil => simp at h
    | cons b bs =>
      simp only [List.map_cons, List.cons.injEq] at h
      obtain ⟨hcore, hrest⟩ := h
      have hsz : itemSize a = itemSize b := by
        simp only [Kaitem.core, Prod.mk.injEq] at hcore
        simp [itemSize, hcore.1, hcore.2.2.2.2]
      show arraysEnd (alignUp off + itemSize a) as = arraysEnd (alignUp off + itemSize b) bs
      rw [hsz]
      exact ih hrest _

theorem WFItem_of_core_eq {a b : Kaitem} (h : a.core = b.core) (hb : WFItem b) : WFItem a := by
  simp only [Kaitem.core, Prod.mk.injEq] at h
  obtain ⟨h1, h2, h3, h4, h5⟩ := h
  refine ⟨?_, ?_, ?_, ?_, ?_, ?_⟩
  · rw [h1]; exact hb.type_lt
  · rw [h2]; exact hb.key_ne
  · rw [h3, h2]; exact hb.key_len_eq
  · rw [h4]; show _ = itemSize a; rw [itemSize, h5, h1]; exact hb.array_len_eq
  · rw [h2]; exact hb.key_bytes
  · rw [h4]; exact hb.array_bytes

theorem wf_of_core {l1 l2 : List Kaitem}
    (h : l1.map Kaitem.core = l2.map Kaitem.core)
    (hwf : ∀ it ∈ l2, WFItem it) : ∀ it ∈ l1, WFItem it := by
  induction l1 generalizing l2 with
  | nil => simp
  | cons a as ih =>
    cases l2 with
    | nil => simp at h
    | cons b bs =>
      simp only [List.map_cons, List.cons.injEq] at h
      intro it hit
      rcases List.mem_cons.mp hit with rfl | hmem
      · exact WFItem_of_core_eq h.1 (hwf b (List.mem_cons_self b bs))
      · exact ih h.2 (fun x hx => hwf x (List.mem_cons_of_mem b hx)) it hmem

theorem read_header_of_fileBytes (n fsize : Nat) (rest : List Nat)
    (hn : n < 2 ^ 32) (hfs : fsize < 2 ^ 64) (hge : KAS_HEADER_SIZE ≤ fsize) :
    kastore_read_header (headerBytes n fsize ++ rest) = .ok (1, 0, n, fsize) := by
  have hlen : (headerBytes n fsize ++ rest).length = 64 + rest.length := by
    simp [headerBytes_length, KAS_HEADER_SIZE]
  have hmagic : sub (headerBytes n fsize ++ rest) 0 8 = KAS_MAGIC := by
    have hassoc : headerBytes n fsize ++ rest
        = ([] : List Nat) ++ (KAS_MAGIC
          ++ (leBytes 2 KAS_FILE_VERSION_MAJOR ++ (leBytes 2 KAS_FILE_VERSION_MINOR
            ++ (leBytes 4 n ++ (leBytes 8 fsize ++ (List.replicate 40 0 ++ rest)))))) := by
      simp [headerBytes]
    rw [hassoc]
    exact sub_append_exact [] KAS_MAGIC _ 0 rfl
  have hmaj : sub (headerBytes n fsize ++ rest) 8 2 = leBytes 2 KAS_FILE_VERSION_MAJOR := by
    have hassoc : headerBytes n fsize ++ rest
        = KAS_MAGIC ++ (leBytes 2 KAS_FILE_VERSION_MAJOR
          ++ (leBytes 2 KAS_FILE_VERSION_MINOR
            ++ (leBytes 4 n ++ (leBytes 8 fsize ++ (List.replicate 40 0 ++ rest))))) := by
      simp [headerBytes]
    rw [hassoc]
    have h := sub_append_exact KAS_MAGIC (leBytes 2 KAS_FILE_VERSION_MAJOR)
      (leBytes 2 KAS_FILE_VERSION_MINOR
        ++ (leBytes 4 n ++ (leBytes 8 fsize ++ (List.replicate 40 0 ++ rest)))) 8 rfl
    rwa [leBytes_length] at h
  have hmin : sub (headerBytes n fsize ++ rest) 10 2 = leBytes 2 KAS_FILE_VERSION_MINOR := by
    have hassoc : headerBytes n fsize ++ rest
        = (KAS_MAGIC ++ leBytes 2 KAS_FILE_VERSION_MAJOR)
          ++ (leBytes 2 KAS_FILE_VERSION_MINOR
            ++ (leBytes 4 n ++ (leBytes 8 fsize ++ (List.replicate 40 0 ++ rest)))) := by
      simp [headerBytes]
    rw [hassoc]
    have hl : (KAS_MAGIC ++ leBytes 2 KAS_FILE_VERSION_MAJOR).length = 10 := by
      simp [leBytes_length, KAS_MAGIC]
    have h := sub_append_exact (KAS_MAGIC ++ leBytes 2 KAS_FILE_VERSION_MAJOR)
      (leBytes 2 KAS_FILE_VERSION_MINOR)
      (leBytes 4 n ++ (leBytes 8 fsize ++ (List.replicate 40 0 ++ rest))) 10 hl
    rwa [leBytes_length] at h
  have hnum : sub (headerBytes n fsize ++ rest) 12 4 = leBytes 4 n := by
    have hassoc : headerBytes n fsize ++ rest
        = (KAS_MAGIC ++ leBytes 2 KAS_FILE_VERSION_MAJOR ++ leBytes 2 KAS_FILE_VERSION_MINOR)
          ++ (leBytes 4 n ++ (leBytes 8 fsize ++ (List.replicate 40 0 ++ rest))) := by
      simp [headerBytes]
    rw [hassoc]
    have hl : (KAS_MAGIC ++ leBytes 2 KAS_FILE_VERSION_MAJOR
        ++ leBytes 2 KAS_FILE_VERSION_MINOR).length = 12 := by
      simp [leBytes_length, KAS_MAGIC]
    have h := sub_append_exact
      (KAS_MAGIC ++ leBytes 2 KAS_FILE_VERSION_MAJOR ++ leBytes 2 KAS_FILE_VERSION_MINOR)
      (leBytes 4 n) (leBytes 8 fsize ++ (List.replicate 40 0 ++ rest)) 12 hl
    rwa [leBytes_length] at h
  have hfsz : sub (headerBytes n fsize ++ rest) 16 8 = leBytes 8 fsize := by
    have hassoc : headerBytes n fsize ++ rest
        = (KAS_MAGIC ++ leBytes 2 KAS_FILE_VERSION_MAJOR ++ leBytes 2 KAS_FILE_VERSION_MINOR
            ++ leBytes 4 n)
          ++ (leBytes 8 fsize ++ (List.replicate 40 0 ++ rest)) := by
      simp [headerBytes]
    rw [hassoc]
    have hl : (KAS_MAGIC ++ leBytes 2 KAS_FILE_VERSION_MAJOR ++ leBytes 2 KAS_FILE_VERSION_MINOR
        ++ leBytes 4 n).length = 16 := by
      simp [leBytes_length, KAS_MAGIC]
    have h := sub_append_exact
      (KAS_MAGIC ++ leBytes 2 KAS_FILE_VERSION_MAJOR ++ leBytes 2 KAS_FILE_VERSION_MINOR
        ++ leBytes 4 n) (leBytes 8 fsize) (List.replicate 40 0 ++ rest) 16 hl
    rwa [leBytes_length] at h
  have hmagic2 : (sub (headerBytes n fsize ++ rest) 0 8).map (· % 256) = KAS_MAGIC := by
    rw [hmagic]
    decide
  have hmajval : leVal (leBytes 2 KAS_FILE_VERSION_MAJOR) = 1 := by
    rw [leVal_leBytes]
    decide
  have hminval : leVal (leBytes 2 KAS_FILE_VERSION_MINOR) = 0 := by
    rw [leVal_leBytes]
    decide
  have hnumval : leVal (leBytes 4 n) = n := by
    rw [leVal_leBytes]
    have : (256 : Nat) ^ 4 = 2 ^ 32 := by norm_num
    rw [this]
    exact Nat.mod_eq_of_lt hn
  have hfsval : leVal (leBytes 8 fsize) = fsize := leVal_leBytes8 hfs
  unfold kastore_read_header
  rw [if_neg (by rw [hlen]; simp [KAS_HEADER_SIZE]), if_neg (by rw [hmagic2]; simp)]
  rw [hmaj, hmin, hnum, hfsz, hmajval, hminval, hnumval, hfsval]
  rw [if_neg (by simp [KAS_FILE_VERSION_MAJOR]), if_neg (by simp [KAS_FILE_VERSION_MAJOR]),
    if_neg (by omega)]

theorem kastore_mmap_file_ok {f : List Nat} {fsize : Nat} (h : f.length = fsize) :
    kastore_mmap_file f fsize = .ok f := by
  unfold kastore_mmap_file
  rw [if_neg (by omega)]

theorem kastore_read_file_ok {f : List Nat} {fsize : Nat} (h : f.length = fsize) :
    kastore_read_file f fsize = .ok f := by
  unfold kastore_read_file
  rw [if_neg (by omega), ← h, List.take_length]

set_option maxHeartbeats 1600000 in
/-- Reading back any serialized packed item list: the reader accepts the file
and reconstructs exactly the packed items, with either backing. -/
theorem read_of_fileBytes (ps : List Kaitem) (fsize flags : Nat)
    (hwfp : ∀ it ∈ ps, WFItem it)
    (hn : ps.length < 2 ^ 32)
    (hfs : fsize < 2 ^ 64)
    (hk : keyStartsOk (KAS_HEADER_SIZE + ps.length * KAS_ITEM_DESCRIPTOR_SIZE) ps)
    (ha : arrayStartsOk (keysEnd (KAS_HEADER_SIZE + ps.length * KAS_ITEM_DESCRIPTOR_SIZE) ps) ps)
    (hfe : fsize = arraysEnd (keysEnd (KAS_HEADER_SIZE + ps.length * KAS_ITEM_DESCRIPTOR_SIZE) ps) ps) :
    kastore_read flags (fileBytes ps fsize) =
      .ok { file_version := (1, 0), num_items := ps.length, file_size := fsize,
            backing := if mmapGate flags then Backing.mmapped else Backing.heap,
            buffer := fileBytes ps fsize, items := ps } := by
  have hwf1 : ∀ it ∈ ps, it.key_len = it.key.length := fun it h => (hwfp it h).key_len_eq
  have hwf2 : ∀ it ∈ ps, it.array.length = itemSize it := fun it h => (hwfp it h).array_len_eq
  have hkge := keysEnd_ge (KAS_HEADER_SIZE + ps.length * KAS_ITEM_DESCRIPTOR_SIZE) ps
  have hage := arraysEnd_ge (keysEnd (KAS_HEADER_SIZE + ps.length * KAS_ITEM_DESCRIPTOR_SIZE) ps) ps
  have hstart_le : KAS_HEADER_SIZE + ps.length * KAS_ITEM_DESCRIPTOR_SIZE ≤ fsize := by
    rw [hfe]
    omega
  have hge64 : KAS_HEADER_SIZE ≤ fsize := le_trans (Nat.le_add_right _ _) hstart_le
  have hkfs : keysEnd (KAS_HEADER_SIZE + ps.length * KAS_ITEM_DESCRIPTOR_SIZE) ps ≤ fsize := by
    rw [hfe]
    omega
  have hlen : (fileBytes ps fsize).length = fsize := fileBytes_length ps fsize hk ha hfe hwf1 hwf2
  have hfb : fileBytes ps fsize
      = (headerBytes ps.length fsize ++ (ps.map descriptorBytes).flatten)
        ++ (ps.map (·.key)).flatten
        ++ arraysBytes (keysEnd (KAS_HEADER_SIZE + ps.length * KAS_ITEM_DESCRIPTOR_SIZE) ps) ps := by
    simp [fileBytes]
  have hheader : kastore_read_header (fileBytes ps fsize) = .ok (1, 0, ps.length, fsize) := by
    have hsplitH : fileBytes ps fsize = headerBytes ps.length fsize
        ++ ((ps.map descriptorBytes).flatten ++ ((ps.map (·.key)).flatten
          ++ arraysBytes (keysEnd (KAS_HEADER_SIZE + ps.length * KAS_ITEM_DESCRIPTOR_SIZE) ps) ps)) := by
      simp [fileBytes]
    rw [hsplitH]
    exact read_header_of_fileBytes ps.length fsize _ hn hfs hge64
  have hbuffer : kastore_read_buffer flags (fileBytes ps fsize) fsize
      = .ok (if mmapGate flags then Backing.mmapped else Backing.heap, fileBytes ps fsize) := by
    unfold kastore_read_buffer
    by_cases hg : mmapGate flags
    · rw [if_pos hg, if_pos hg, kastore_mmap_file_ok hlen]
      rfl
    · rw [if_neg hg, if_neg hg, kastore_read_file_ok hlen]
      rfl
  have hcheck : ∀ it ∈ ps, it.type < KAS_NUM_TYPES ∧ it.key_start + it.key_len ≤ fsize
      ∧ it.array_start + itemSize it ≤ fsize := by
    intro it h
    have hb1 := keyStartsOk_bounds _ _ hk it h
    have hb2 := arrayStartsOk_bounds _ _ ha it h
    exact ⟨(hwfp it h).type_lt, by omega, by omega⟩
  have hpre1 : (headerBytes ps.length fsize ++ (ps.map descriptorBytes).flatten).length
      = KAS_HEADER_SIZE + ps.length * KAS_ITEM_DESCRIPTOR_SIZE := by
    rw [List.length_append, headerBytes_length, descRegion_length]
  have hkey : ∀ it ∈ ps, sub (fileBytes ps fsize) it.key_start it.key_len = it.key := by
    intro it h
    have hc := keys_cover ps _ (headerBytes ps.length fsize ++ (ps.map descriptorBytes).flatten)
      (arraysBytes (keysEnd (KAS_HEADER_SIZE + ps.length * KAS_ITEM_DESCRIPTOR_SIZE) ps) ps)
      hpre1 hk hwf1 it h
    rw [hwf1 it h, hfb]
    exact hc
  have hpre2 : ((headerBytes ps.length fsize ++ (ps.map descriptorBytes).flatten)
      ++ (ps.map (·.key)).flatten).length
      = keysEnd (KAS_HEADER_SIZE + ps.length * KAS_ITEM_DESCRIPTOR_SIZE) ps := by
    rw [List.length_append, hpre1, keyRegion_length ps hwf1]
    rfl
  have harr : ∀ it ∈ ps, sub (fileBytes ps fsize) it.array_start (itemSize it) = it.array := by
    intro it h
    have hc := arrays_cover ps _ ((headerBytes ps.length fsize ++ (ps.map descriptorBytes).flatten)
      ++ (ps.map (·.key)).flatten) hpre2 ha hwf2 it h
    rw [hfb]
    exact hc
  have hloop : readItemsLoop (fileBytes ps fsize) fsize KAS_HEADER_SIZE ps.length = .ok ps := by
    have hbuf : fileBytes ps fsize = headerBytes ps.length fsize
        ++ ((ps.map descriptorBytes).flatten ++ ((ps.map (·.key)).flatten
          ++ arraysBytes (keysEnd (KAS_HEADER_SIZE + ps.length * KAS_ITEM_DESCRIPTOR_SIZE) ps) ps)) := by
      simp [fileBytes]
    have h := readItemsLoop_ok ps (fileBytes ps fsize) fsize (headerBytes ps.length fsize)
      ((ps.map (·.key)).flatten
        ++ arraysBytes (keysEnd (KAS_HEADER_SIZE + ps.length * KAS_ITEM_DESCRIPTOR_SIZE) ps) ps)
      hbuf hfs hcheck hkey harr
    rwa [headerBytes_length] at h
  have hkw : keyWalk (KAS_HEADER_SIZE + ps.length * KAS_ITEM_DESCRIPTOR_SIZE) ps
      = .ok (keysEnd (KAS_HEADER_SIZE + ps.length * KAS_ITEM_DESCRIPTOR_SIZE) ps) :=
    keyWalk_ok ps _ hk (by omega)
  have haw : arrayWalk (keysEnd (KAS_HEADER_SIZE + ps.length * KAS_ITEM_DESCRIPTOR_SIZE) ps) ps
      = .ok (arraysEnd (keysEnd (KAS_HEADER_SIZE + ps.length * KAS_ITEM_DESCRIPTOR_SIZE) ps) ps) :=
    arrayWalk_ok ps _ ha (by omega)
  have hdesc : kastore_read_descriptors (fileBytes ps fsize) ps.length fsize = .ok ps := by
    unfold kastore_read_descriptors
    rw [if_neg (by omega)]
    simp only [hloop, descWalkCheck, hkw, haw]
  unfold kastore_read
  rcases ps with _ | ⟨p0, ptail⟩
  · simp only [hheader, hbuffer]
    rfl
  · have h01 : 0 < (p0 :: ptail).length := by simp
    simp only [hheader, hbuffer, if_pos h01, hdesc]

/-- The packed item list a flush serializes. -/
def packedOf (items : List Kaitem) : List Kaitem :=
  (kastore_pack_items (items.mergeSort itemLe)).1

/-- The file size the packer computes for a flush. -/
def fsizeOf (items : List Kaitem) : Nat :=
  (kastore_pack_items (items.mergeSort itemLe)).2

theorem kastore_write_file_eq (items : List Kaitem) :
    kastore_write_file items = fileBytes (packedOf items) (fsizeOf items) := rfl

theorem kastore_pack_items_eq (l : List Kaitem) :
    kastore_pack_items l
      = packArrays (keysEnd (KAS_HEADER_SIZE + l.length * KAS_ITEM_DESCRIPTOR_SIZE) l)
          (packKeys (KAS_HEADER_SIZE + l.length * KAS_ITEM_DESCRIPTOR_SIZE) l) := rfl

theorem pack_items_core (l : List Kaitem) :
    (kastore_pack_items l).1.map Kaitem.core = l.map Kaitem.core := by
  rw [kastore_pack_items_eq, packArrays_fst_core, packKeys_core]

theorem pack_items_length (l : List Kaitem) :
    (kastore_pack_items l).1.length = l.length := by
  rw [kastore_pack_items_eq, packArrays_fst_length, packKeys_length]

theorem pack_items_keyStartsOk (l : List Kaitem) :
    keyStartsOk (KAS_HEADER_SIZE + (kastore_pack_items l).1.length * KAS_ITEM_DESCRIPTOR_SIZE)
      (kastore_pack_items l).1 := by
  rw [pack_items_length, kastore_pack_items_eq]
  exact packArrays_keyStartsOk _ _ _ (packKeys_keyStartsOk _ l)

theorem pack_items_arrayStartsOk (l : List Kaitem) :
    arrayStartsOk
      (keysEnd (KAS_HEADER_SIZE + (kastore_pack_items l).1.length * KAS_ITEM_DESCRIPTOR_SIZE)
        (kastore_pack_items l).1)
      (kastore_pack_items l).1 := by
  rw [pack_items_length]
  have hcore : (kastore_pack_items l).1.map Kaitem.core = l.map Kaitem.core := pack_items_core l
  rw [keysEnd_congr (KAS_HEADER_SIZE + l.length * KAS_ITEM_DESCRIPTOR_SIZE) hcore,
    kastore_pack_items_eq]
  exact packArrays_arrayStartsOk _ _

theorem pack_items_fsize (l : List Kaitem) :
    (kastore_pack_items l).2
      = arraysEnd
          (keysEnd (KAS_HEADER_SIZE + (kastore_pack_items l).1.length * KAS_ITEM_DESCRIPTOR_SIZE)
            (kastore_pack_items l).1)
          (kastore_pack_items l).1 := by
  rw [pack_items_length]
  have hcore : (kastore_pack_items l).1.map Kaitem.core = l.map Kaitem.core := pack_items_core l
  rw [keysEnd_congr (KAS_HEADER_SIZE + l.length * KAS_ITEM_DESCRIPTOR_SIZE) hcore,
    arraysEnd_congr hcore]
  have hcore2 : (packKeys (KAS_HEADER_SIZE + l.length * KAS_ITEM_DESCRIPTOR_SIZE) l).map
      Kaitem.core = l.map Kaitem.core := packKeys_core _ l
  rw [← arraysEnd_congr hcore2, kastore_pack_items_eq, packArrays_snd]

/-- Writing any store of well-formed items and reading the file back
succeeds (with either backing) and reconstructs exactly the packed items. -/
theorem read_of_write (items : List Kaitem) (flags : Nat)
    (hwf : ∀ it ∈ items, WFItem it)
    (hn : items.length < 2 ^ 32)
    (hfs : fsizeOf items < 2 ^ 64) :
    kastore_read flags (kastore_write_file items) =
      .ok { file_version := (1, 0), num_items := items.length, file_size := fsizeOf items,
            backing := if mmapGate flags then Backing.mmapped else Backing.heap,
            buffer := kastore_write_file items, items := packedOf items } := by
  have hperm := List.mergeSort_perm items itemLe
  have hwfS : ∀ it ∈ items.mergeSort itemLe, WFItem it :=
    fun it h => hwf it (hperm.mem_iff.mp h)
  have hcore : (packedOf items).map Kaitem.core = (items.mergeSort itemLe).map Kaitem.core :=
    pack_items_core _
  have hwfp : ∀ it ∈ packedOf items, WFItem it := wf_of_core hcore hwfS
  have hlen2 : (packedOf items).length = items.length := by
    rw [show packedOf items = (kastore_pack_items (items.mergeSort itemLe)).1 from rfl,
      pack_items_length, hperm.length_eq]
  have h := read_of_fileBytes (packedOf items) (fsizeOf items) flags hwfp
    (by rw [hlen2]; exact hn) hfs
    (pack_items_keyStartsOk _) (pack_items_arrayStartsOk _) (pack_items_fsize _)
  rw [hlen2] at h
  rw [kastore_write_file_eq]
  exact h

/-- One put call as issued by a caller: key bytes, payload bytes, element
count and the C int type tag. -/
structure PutCall where
  key : List Nat
  array : List Nat
  array_len : Nat
  type : Int
deriving DecidableEq, Repr

/-- The in-memory item a successful put creates. -/
def callItem (c : PutCall) : Kaitem :=
  { type := c.type.toNat, key := c.key, key_len := c.key.length,
    array := c.array, array_len := c.array_len }

/-- Arguments kastore_put accepts, with byte-ranged contents and a payload
of exactly array_len elements. -/
structure ValidCall (c : PutCall) : Prop where
  type_nonneg : 0 ≤ c.type
  type_lt : c.type < (KAS_NUM_TYPES : Int)
  key_ne : c.key ≠ []
  key_bytes : ∀ b ∈ c.key, b < 256
  array_bytes : ∀ b ∈ c.array, b < 256
  array_len_eq : c.array.length = c.array_len * type_size c.type.toNat

/-- Fold a sequence of put calls over a store, as a caller would issue them. -/
def putAll (s : Kastore) : List PutCall → Kastore
  | [] => s
  | c :: rest => putAll (kastore_put s c.key c.array c.array_len c.type).2 rest

/-- Every put call of the sequence returns success. -/
def putAllOk (s : Kastore) : List PutCall → Prop
  | [] => True
  | c :: rest => (kastore_put s c.key c.array c.array_len c.type).1 = none
      ∧ putAllOk (kastore_put s c.key c.array c.array_len c.type).2 rest

/-- The fresh write-mode store kastore_open leaves for mode w. -/
def writeStore (flags : Nat) : Kastore :=
  { mode := KAS_WRITE, flags := flags, file_open := true }

theorem callItem_WF (c : PutCall) (hc : ValidCall c) : WFItem (callItem c) := by
  have h8 : (KAS_NUM_TYPES : Int) = 8 := rfl
  refine ⟨?_, hc.key_ne, rfl, hc.array_len_eq, hc.key_bytes, hc.array_bytes⟩
  show c.type.toNat < KAS_NUM_TYPES
  have := hc.type_nonneg
  have := hc.type_lt
  omega

theorem kastore_put_ok (s : Kastore) (c : PutCall) (hc : ValidCall c)
    (hfresh : ∀ it ∈ s.itemsL, it.key ≠ c.key) :
    kastore_put s c.key c.array c.array_len c.type
      = (none, { s with items := some (s.itemsL ++ [callItem c]) }) := by
  have h8 : (KAS_NUM_TYPES : Int) = 8 := rfl
  have ht1 := hc.type_nonneg
  have ht2 := hc.type_lt
  unfold kastore_put
  rw [if_neg (by omega)]
  rw [if_neg (by simp [hc.key_ne])]
  rw [if_neg ?hdup]
  case hdup =>
    simp only [List.any_eq_true, decide_eq_true_eq, not_exists, not_and]
    intro it hit
    rw [compare_items_eq_zero_iff]
    intro he
    exact hfresh it hit (by rw [← he])
  rfl

theorem kastore_put_preserves (s : Kastore) (k a : List Nat) (al : Nat) (t : Int) :
    ((kastore_put s k a al t).2).mode = s.mode
    ∧ ((kastore_put s k a al t).2).flags = s.flags
    ∧ ((kastore_put s k a al t).2).file_open = s.file_open
    ∧ ((kastore_put s k a al t).2).read_buffer = s.read_buffer := by
  unfold kastore_put
  split_ifs
  · exact ⟨rfl, rfl, rfl, rfl⟩
  · exact ⟨rfl, rfl, rfl, rfl⟩
  · by_cases hdup : (s.itemsL.any fun it => compare_items
        { type := t.toNat, key := k, key_len := k.length, array := a, array_len := al } it = 0)
        = true
    · simp only [if_pos hdup]
      simp
    · simp only [if_neg hdup]
      simp

theorem putAll_preserves (calls : List PutCall) (s : Kastore) :
    (putAll s calls).mode = s.mode
    ∧ (putAll s calls).flags = s.flags
    ∧ (putAll s calls).file_open = s.file_open
    ∧ (putAll s calls).read_buffer = s.read_buffer := by
  induction calls generalizing s with
  | nil => exact ⟨rfl, rfl, rfl, rfl⟩
  | cons c rest ih =>
    have h1 := kastore_put_preserves s c.key c.array c.array_len c.type
    have h2 := ih (kastore_put s c.key c.array c.array_len c.type).2
    refine ⟨?_, ?_, ?_, ?_⟩
    · show (putAll (kastore_put s c.key c.array c.array_len c.type).2 rest).mode = s.mode
      rw [h2.1, h1.1]
    · show (putAll (kastore_put s c.key c.array c.array_len c.type).2 rest).flags = s.flags
      rw [h2.2.1, h1.2.1]
    · show (putAll (kastore_put s c.key c.array c.array_len c.type).2 rest).file_open
          = s.file_open
      rw [h2.2.2.1, h1.2.2.1]
    · show (putAll (kastore_put s c.key c.array c.array_len c.type).2 rest).read_buffer
          = s.read_buffer
      rw [h2.2.2.2, h1.2.2.2]

theorem putAll_spec (calls : List PutCall) (s : Kastore)
    (hval : ∀ c ∈ calls, ValidCall c)
    (hdist : calls.Pairwise (fun a b => a.key ≠ b.key))
    (hfresh : ∀ c ∈ calls, ∀ it ∈ s.itemsL, it.key ≠ c.key) :
    putAllOk s calls ∧ (putAll s calls).itemsL = s.itemsL ++ calls.map callItem := by
  induction calls generalizing s with
  | nil => exact ⟨trivial, by simp [putAll]⟩
  | cons c rest ih =>
    have hc := hval c (List.mem_cons_self c rest)
    have hput := kastore_put_ok s c hc (hfresh c (List.mem_cons_self c rest))
    have hs2 : (kastore_put s c.key c.array c.array_len c.type).2
        = { s with items := some (s.itemsL ++ [callItem c]) } := by rw [hput]
    have hs2items : ((kastore_put s c.key c.array c.array_len c.type).2).itemsL
        = s.itemsL ++ [callItem c] := by
      rw [hs2]
      rfl
    have hdist2 := (List.pairwise_cons.mp hdist).2
    have hheadne := (List.pairwise_cons.mp hdist).1
    have hfresh2 : ∀ d ∈ rest, ∀ it ∈ ((kastore_put s c.key c.array c.array_len c.type).2).itemsL,
        it.key ≠ d.key := by
      intro d hd it hit
      rw [hs2items] at hit
      rcases List.mem_append.mp hit with hin | hin
      · exact hfresh d (List.mem_cons_of_mem c hd) it hin
      · have : it = callItem c := by simpa using hin
        subst this
        show c.key ≠ d.key
        exact hheadne d hd
    have hrec := ih _ (fun d hd => hval d (List.mem_cons_of_mem c hd)) hdist2 hfresh2
    refine ⟨⟨by rw [hput], hrec.1⟩, ?_⟩
    show (putAll (kastore_put s c.key c.array c.array_len c.type).2 rest).itemsL = _
    rw [hrec.2, hs2items]
    simp

theorem find_item_of_mem {l : List Kaitem} {it : Kaitem}
    (hdist : l.Pairwise (fun a b => a.key ≠ b.key))
    (hmem : it ∈ l) {k : List Nat} (hk : it.key = k) :
    l.find? (fun x => compare_items { key := k, key_len := k.length } x = 0) = some it := by
  induction l with
  | nil => cases hmem
  | cons h rest ih =>
    have hpair := List.pairwise_cons.mp hdist
    by_cases hkey : k = h.key
    · have hith : it = h := by
        rcases List.mem_cons.mp hmem with rfl | hm
        · rfl
        · exact absurd (hk.trans hkey).symm (hpair.1 it hm)
      subst hith
      have hp : (fun x => decide (compare_items { key := k, key_len := k.length } x = 0)) it
          = true := by
        simp only [decide_eq_true_eq]
        rw [compare_items_eq_zero_iff]
        exact hkey
      exact List.find?_cons_of_pos _ (by simpa using hp)
    · have hne : (fun x => decide (compare_items { key := k, key_len := k.length } x = 0)) h
          = false := by
        simp only [decide_eq_false_iff_not]
        rw [compare_items_eq_zero_iff]
        exact hkey
      have hm : it ∈ rest := by
        rcases List.mem_cons.mp hmem with rfl | hm2
        · exact absurd hk.symm hkey
        · exact hm2
      rw [List.find?_cons_of_neg _ (by simpa using hne)]
      exact ih hpair.2 hm

theorem kastore_get_found (s : Kastore) (it : Kaitem) (k : List Nat)
    (hdist : s.itemsL.Pairwise (fun a b => a.key ≠ b.key))
    (hmem : it ∈ s.itemsL) (hk : it.key = k) :
    kastore_get s k = .ok (it.array, it.array_len, it.type) := by
  unfold kastore_get
  simp only [find_item_of_mem hdist hmem hk]

theorem kastore_get_missing (s : Kastore) (k : List Nat)
    (habs : ∀ it ∈ s.itemsL, it.key ≠ k) :
    kastore_get s k = .error .keyNotFound := by
  unfold kastore_get
  have hnone : s.itemsL.find?
      (fun x => compare_items { key := k, key_len := k.length } x = 0) = none := by
    rw [List.find?_eq_none]
    intro it hit
    simp only [decide_eq_true_eq]
    rw [compare_items_eq_zero_iff]
    exact fun he => habs it hit he.symm
  simp only [hnone]

/-- The payload data of an item: key, type, array bytes, element count. -/
def itemData (it : Kaitem) : List Nat × Nat × List Nat × Nat :=
  (it.key, it.type, it.array, it.array_len)

/-- The payload data a put call commits. -/
def callData (c : PutCall) : List Nat × Nat × List Nat × Nat :=
  (c.key, c.type.toNat, c.array, c.array_len)

theorem itemData_of_core {l1 l2 : List Kaitem}
    (h : l1.map Kaitem.core = l2.map Kaitem.core) :
    l1.map itemData = l2.map itemData := by
  induction l1 generalizing l2 with
  | nil => cases l2 <;> simp_all
  | cons a as ih =>
    cases l2 with
    | nil => simp at h
    | cons b bs =>
      simp only [List.map_cons, List.cons.injEq] at h ⊢
      have hcore := h.1
      simp only [Kaitem.core, Prod.mk.injEq] at hcore
      exact ⟨by simp [itemData, hcore.1, hcore.2.1, hcore.2.2.2.1, hcore.2.2.2.2], ih h.2⟩

theorem keys_of_core {l1 l2 : List Kaitem}
    (h : l1.map Kaitem.core = l2.map Kaitem.core) :
    l1.map (·.key) = l2.map (·.key) := by
  induction l1 generalizing l2 with
  | nil => cases l2 <;> simp_all
  | cons a as ih =>
    cases l2 with
    | nil => simp at h
    | cons b bs =>
      simp only [List.map_cons, List.cons.injEq] at h ⊢
      have hcore := h.1
      simp only [Kaitem.core, Prod.mk.injEq] at hcore
      exact ⟨hcore.2.1, ih h.2⟩

theorem mem_of_core {l1 l2 : List Kaitem}
    (h : l1.map Kaitem.core = l2.map Kaitem.core) {b : Kaitem} (hb : b ∈ l2) :
    ∃ a ∈ l1, a.core = b.core := by
  induction l1 generalizing l2 with
  | nil => cases l2 <;> simp_all
  | cons a as ih =>
    cases l2 with
    | nil => simp at hb
    | cons b0 bs =>
      simp only [List.map_cons, List.cons.injEq] at h
      rcases List.mem_cons.mp hb with rfl | hbs
      · exact ⟨a, List.mem_cons_self a as, h.1⟩
      · obtain ⟨x, hx1, hx2⟩ := ih h.2 hbs
        exact ⟨x, List.mem_cons_of_mem a hx1, hx2⟩

theorem calls_map_itemData (calls : List PutCall) :
    (calls.map callItem).map itemData = calls.map callData := by
  induction calls with
  | nil => rfl
  | cons c rest ih => simp [itemData, callItem, callData, ih]

/-- Items sorted ascending under the section 4.2 order. -/
def sortedItems (l : List Kaitem) : Prop :=
  l.Pairwise (fun a b => compare_items a b ≤ 0)

instance (l : List Kaitem) : Decidable (sortedItems l) := by
  unfold sortedItems
  infer_instance

theorem sortedItems_of_keys {l1 l2 : List Kaitem}
    (hkeys : l1.map (·.key) = l2.map (·.key)) (hs : sortedItems l2) : sortedItems l1 := by
  unfold sortedItems at *
  have h1 : List.Pairwise (fun a b : List Nat => keyCmp a b ≤ 0) (l2.map (·.key)) := by
    rw [List.pairwise_map]
    exact hs.imp (fun hab => by rwa [compare_items_eq_keyCmp] at hab)
  rw [← hkeys, List.pairwise_map] at h1
  exact h1.imp (fun hab => by rwa [compare_items_eq_keyCmp])

theorem mergeSort_sortedItems (l : List Kaitem) : sortedItems (l.mergeSort itemLe) := by
  have h := List.sorted_mergeSort itemLe_trans itemLe_total l
  unfold sortedItems
  exact h.imp (fun hab => by
    simpa [itemLe, decide_eq_true_eq] using hab)

/-- The key_start offsets the packer walk of the reader recomputes (size_t
arithmetic, from the parsed key_len fields). -/
def walkKeyStarts : Nat → List Kaitem → List Nat
  | _, [] => []
  | off, it :: rest => off :: walkKeyStarts (m64 (off + it.key_len)) rest

/-- Final offset of the reader's key walk. -/
def walkKeyEnd : Nat → List Kaitem → Nat
  | off, [] => off
  | off, it :: rest => walkKeyEnd (m64 (off + it.key_len)) rest

/-- The array_start offsets the packer walk of the reader recomputes. -/
def walkArrayStarts : Nat → List Kaitem → List Nat
  | _, [] => []
  | off, it :: rest =>
    let off2 := if off % KAS_ARRAY_ALIGN = 0 then off
      else m64 (off + (KAS_ARRAY_ALIGN - off % KAS_ARRAY_ALIGN))
    off2 :: walkArrayStarts (m64 (off2 + it.array_len * type_size it.type)) rest

theorem keyWalk_ok_elim {l : List Kaitem} {off fin : Nat} (h : keyWalk off l = .ok fin) :
    l.map (·.key_start) = walkKeyStarts off l ∧ fin = walkKeyEnd off l := by
  induction l generalizing off with
  | nil =>
    refine ⟨rfl, ?_⟩
    have : (Except.ok off : Except KasErr Nat) = .ok fin := h
    injection this with h2
    exact h2.symm
  | cons it rest ih =>
    unfold keyWalk at h
    by_cases hc : it.key_start ≠ off
    · rw [if_pos hc] at h
      cases h
    · rw [if_neg hc] at h
      push_neg at hc
      have := ih h
      exact ⟨by simp [walkKeyStarts, hc, this.1], by simp [walkKeyEnd, this.2]⟩

theorem arrayWalk_ok_elim {l : List Kaitem} {off fin : Nat} (h : arrayWalk off l = .ok fin) :
    l.map (·.array_start) = walkArrayStarts off l := by
  induction l generalizing off with
  | nil => rfl
  | cons it rest ih =>
    unfold arrayWalk at h
    by_cases hc : it.array_start ≠ (if off % KAS_ARRAY_ALIGN = 0 then off
        else m64 (off + (KAS_ARRAY_ALIGN - off % KAS_ARRAY_ALIGN)))
    · rw [if_pos hc] at h
      cases h
    · rw [if_neg hc] at h
      push_neg at hc
      have := ih h
      simp only [walkArrayStarts, List.map_cons]
      exact List.cons_eq_cons.mpr ⟨hc, this⟩

theorem read_header_inv {f : List Nat} {mj mn n fs : Nat}
    (h : kastore_read_header f = .ok (mj, mn, n, fs)) :
    KAS_HEADER_SIZE ≤ f.length
    ∧ (sub f 0 8).map (· % 256) = KAS_MAGIC
    ∧ mj = 1 ∧ leVal (sub f 8 2) = 1
    ∧ mn = leVal (sub f 10 2) ∧ n = leVal (sub f 12 4) ∧ fs = leVal (sub f 16 8)
    ∧ KAS_HEADER_SIZE ≤ fs := by
  unfold kastore_read_header at h
  by_cases h1 : f.length < KAS_HEADER_SIZE
  · rw [if_pos h1] at h
    cases h
  · rw [if_neg h1] at h
    by_cases h2 : (sub f 0 8).map (· % 256) ≠ KAS_MAGIC
    · rw [if_pos h2] at h
      cases h
    · rw [if_neg h2] at h
      have hh : (if leVal (sub f 8 2) < KAS_FILE_VERSION_MAJOR then
            (Except.error KasErr.versionTooOld : Except KasErr (Nat × Nat × Nat × Nat))
          else if KAS_FILE_VERSION_MAJOR < leVal (sub f 8 2) then
            Except.error KasErr.versionTooNew
          else if leVal (sub f 16 8) < KAS_HEADER_SIZE then Except.error KasErr.badFileFormat
          else Except.ok (leVal (sub f 8 2), leVal (sub f 10 2), leVal (sub f 12 4),
            leVal (sub f 16 8))) = .ok (mj, mn, n, fs) := h
      by_cases h3 : leVal (sub f 8 2) < KAS_FILE_VERSION_MAJOR
      · rw [if_pos h3] at hh
        cases hh
      · rw [if_neg h3] at hh
        by_cases h4 : KAS_FILE_VERSION_MAJOR < leVal (sub f 8 2)
        · rw [if_pos h4] at hh
          cases hh
        · rw [if_neg h4] at hh
          by_cases h5 : leVal (sub f 16 8) < KAS_HEADER_SIZE
          · rw [if_pos h5] at hh
            cases hh
          · rw [if_neg h5] at hh
            injection hh with h6
            injection h6 with ha h7
            injection h7 with hb h8
            injection h8 with hc hd
            have hm1 : KAS_FILE_VERSION_MAJOR = 1 := rfl
            push_neg at h2
            exact ⟨by omega, h2, by omega, by omega, hb.symm, hc.symm, hd.symm, by omega⟩

theorem read_descriptors_inv {buf : List Nat} {n fs : Nat} {items : List Kaitem}
    (h : kastore_read_descriptors buf n fs = .ok items) :
    ∃ off fin,
      keyWalk (KAS_HEADER_SIZE + n * KAS_ITEM_DESCRIPTOR_SIZE) items = .ok off
      ∧ arrayWalk off items = .ok fin := by
  unfold kastore_read_descriptors at h
  by_cases hb : fs < KAS_HEADER_SIZE + n * KAS_ITEM_DESCRIPTOR_SIZE
  · rw [if_pos hb] at h
    cases h
  · rw [if_neg hb] at h
    rcases hloop : readItemsLoop buf fs KAS_HEADER_SIZE n with e | l0
    · rw [hloop] at h
      cases h
    · rw [hloop] at h
      have h2 : (match keyWalk (KAS_HEADER_SIZE + n * KAS_ITEM_DESCRIPTOR_SIZE) l0 with
          | Except.error e => (Except.error e : Except KasErr (List Kaitem))
          | Except.ok off =>
            match arrayWalk off l0 with
            | Except.error e => Except.error e
            | Except.ok _ => Except.ok l0) = .ok items := h
      rcases hkw : keyWalk (KAS_HEADER_SIZE + n * KAS_ITEM_DESCRIPTOR_SIZE) l0 with e | off
      · rw [hkw] at h2
        cases h2
      · rw [hkw] at h2
        have h3 : (match arrayWalk off l0 with
            | Except.error e => (Except.error e : Except KasErr (List Kaitem))
            | Except.ok _ => Except.ok l0) = .ok items := h2
        rcases haw : arrayWalk off l0 with e | fin
        · rw [haw] at h3
          cases h3
        · rw [haw] at h3
          have h4 : (Except.ok l0 : Except KasErr (List Kaitem)) = .ok items := h3
          injection h4 with h5
          subst h5
          exact ⟨off, fin, hkw, haw⟩

theorem kastore_read_inv {flags : Nat} {f : List Nat} {r : ReadResult}
    (h : kastore_read flags f = .ok r) :
    kastore_read_header f = .ok (r.file_version.1, r.file_version.2, r.num_items, r.file_size)
    ∧ (mmapGate flags = true → f.length = r.file_size ∧ r.buffer = f)
    ∧ (mmapGate flags = false → r.file_size ≤ f.length ∧ r.buffer = f.take r.file_size)
    ∧ (0 < r.num_items → kastore_read_descriptors r.buffer r.num_items r.file_size = .ok r.items)
    ∧ (r.num_items = 0 → r.items = []) := by
  unfold kastore_read at h
  split at h
  · cases h
  next mj mn n fs heq =>
    split at h
    · cases h
    next backing buf heq2 =>
      split at h
      · cases h
      next items heq3 =>
        injection h with h2
        subst h2
        refine ⟨heq, ?_, ?_, ?_, ?_⟩
        · intro hg
          unfold kastore_read_buffer at heq2
          rw [if_pos hg] at heq2
          unfold kastore_mmap_file at heq2
          by_cases hl : f.length ≠ fs
          · rw [if_pos hl] at heq2
            cases heq2
          · rw [if_neg hl] at heq2
            have h5 : (Except.ok (Backing.mmapped, f) : Except KasErr (Backing × List Nat))
                = .ok (backing, buf) := heq2
            injection h5 with h6
            push_neg at hl
            exact ⟨hl, (congrArg Prod.snd h6).symm⟩
        · intro hg
          unfold kastore_read_buffer at heq2
          rw [if_neg (by simp [hg])] at heq2
          unfold kastore_read_file at heq2
          by_cases hl : f.length < fs
          · rw [if_pos hl] at heq2
            cases heq2
          · rw [if_neg hl] at heq2
            have h5 : (Except.ok (Backing.heap, f.take fs) : Except KasErr (Backing × List Nat))
                = .ok (backing, buf) := heq2
            injection h5 with h6
            refine ⟨?_, (congrArg Prod.snd h6).symm⟩
            show fs ≤ f.length
            omega
        · intro hn
          rw [if_pos hn] at heq3
          exact heq3
        · intro hn0
          have hn' : n = 0 := hn0
          rw [if_neg (by omega)] at heq3
          injection heq3 with h7
          exact h7.symm

theorem kastore_read_header_ok_eq {flags : Nat} {f : List Nat} {mj mn n fs : Nat}
    (hh : kastore_read_header f = .ok (mj, mn, n, fs)) :
    kastore_read flags f
      = match kastore_read_buffer flags f fs with
        | .error e => .error e
        | .ok (backing, buf) =>
          match (if 0 < n then kastore_read_descriptors buf n fs else .ok []) with
          | .error e => .error e
          | .ok items =>
            .ok { file_version := (mj, mn), num_items := n, file_size := fs,
                  backing := backing, buffer := buf, items := items } := by
  unfold kastore_read
  rw [hh]

theorem kastore_read_of_header_error {flags : Nat} {f : List Nat} {e : KasErr}
    (hh : kastore_read_header f = .error e) :
    kastore_read flags f = .error e := by
  unfold kastore_read
  rw [hh]

theorem kastore_read_of_buffer_error {flags : Nat} {f : List Nat} {mj mn n fs : Nat} {e : KasErr}
    (hh : kastore_read_header f = .ok (mj, mn, n, fs))
    (hb : kastore_read_buffer flags f fs = .error e) :
    kastore_read flags f = .error e := by
  rw [kastore_read_header_ok_eq hh, hb]

theorem kastore_read_of_desc {flags : Nat} {f : List Nat} {mj mn n fs : Nat}
    {backing : Backing} {buf : List Nat}
    (hh : kastore_read_header f = .ok (mj, mn, n, fs))
    (hb : kastore_read_buffer flags f fs = .ok (backing, buf))
    (hn : 0 < n) :
    kastore_read flags f
      = match kastore_read_descriptors buf n fs with
        | .error e => .error e
        | .ok items =>
          .ok { file_version := (mj, mn), num_items := n, file_size := fs,
                backing := backing, buffer := buf, items := items } := by
  have h1 := @kastore_read_header_ok_eq flags f mj mn n fs hh
  rw [hb] at h1
  have h2 : kastore_read flags f
      = match (if 0 < n then kastore_read_descriptors buf n fs else .ok []) with
        | Except.error e => (Except.error e : Except KasErr ReadResult)
        | Except.ok items =>
          Except.ok { file_version := (mj, mn), num_items := n, file_size := fs,
                      backing := backing, buffer := buf, items := items } := h1
  rw [if_pos hn] at h2
  exact h2

theorem kastore_read_of_zero {flags : Nat} {f : List Nat} {mj mn fs : Nat}
    {backing : Backing} {buf : List Nat}
    (hh : kastore_read_header f = .ok (mj, mn, 0, fs))
    (hb : kastore_read_buffer flags f fs = .ok (backing, buf)) :
    kastore_read flags f
      = .ok { file_version := (mj, mn), num_items := 0, file_size := fs,
              backing := backing, buffer := buf, items := [] } := by
  have h1 := @kastore_read_header_ok_eq flags f mj mn 0 fs hh
  rw [hb] at h1
  exact h1

theorem read_header_congr {f g : List Nat}
    (hf : KAS_HEADER_SIZE ≤ f.length) (hg : KAS_HEADER_SIZE ≤ g.length)
    (hsub : ∀ p l, p + l ≤ 24 → sub f p l = sub g p l) :
    kastore_read_header f = kastore_read_header g := by
  unfold kastore_read_header
  rw [hsub 0 8 (by norm_num), hsub 8 2 (by norm_num), hsub 10 2 (by norm_num),
    hsub 12 4 (by norm_num), hsub 16 8 (by norm_num),
    if_neg (show ¬ f.length < KAS_HEADER_SIZE by omega),
    if_neg (show ¬ g.length < KAS_HEADER_SIZE by omega)]

theorem sub_append_left (pre X : List Nat) (p l : Nat) (h : p + l ≤ pre.length) :
    sub (pre ++ X) p l = sub pre p l := by
  unfold sub
  rw [List.drop_append_of_le_length (by omega),
    List.take_append_of_le_length (by rw [List.length_drop]; omega)]

/-- Replace the seg.length bytes of a file at the given position. -/
def overwrite (f : List Nat) (pos : Nat) (seg : List Nat) : List Nat :=
  f.take pos ++ seg ++ f.drop (pos + seg.length)

theorem overwrite_length (f seg : List Nat) (pos : Nat) (h : pos + seg.length ≤ f.length) :
    (overwrite f pos seg).length = f.length := by
  simp [overwrite]
  omega

theorem sub_overwrite_before (f seg : List Nat) (pos p l : Nat)
    (hp : p + l ≤ pos) (hpos : pos ≤ f.length) :
    sub (overwrite f pos seg) p l = sub f p l := by
  unfold overwrite
  rw [List.append_assoc, sub_append_left _ _ _ _ (by rw [List.length_take]; omega)]
  exact sub_take_of_le f pos p l hp

theorem sub_overwrite_at (f seg : List Nat) (pos : Nat) (hpos : pos ≤ f.length) :
    sub (overwrite f pos seg) pos seg.length = seg := by
  unfold overwrite
  rw [List.append_assoc]
  exact sub_append_exact (f.take pos) seg _ pos (by rw [List.length_take]; omega)

theorem drop_overwrite_after (f seg : List Nat) (pos : Nat)
    (h : pos + seg.length ≤ f.length) :
    (overwrite f pos seg).drop (pos + seg.length) = f.drop (pos + seg.length) := by
  unfold overwrite
  have hlen : (f.take pos ++ seg).length = pos + seg.length := by
    simp
    omega
  rw [← hlen, List.drop_left]

theorem sub_overwrite_after (f seg : List Nat) (pos p l : Nat)
    (hp : pos + seg.length ≤ p) (hf : pos + seg.length ≤ f.length) :
    sub (overwrite f pos seg) p l = sub f p l :=
  sub_of_agree_drop _ _ (pos + seg.length) p l (drop_overwrite_after f seg pos hf) hp

theorem kastore_read_header_eq (f : List Nat) :
    kastore_read_header f
      = if f.length < KAS_HEADER_SIZE then .error .badFileFormat
        else if (sub f 0 8).map (· % 256) ≠ KAS_MAGIC then .error .badFileFormat
        else if leVal (sub f 8 2) < KAS_FILE_VERSION_MAJOR then .error .versionTooOld
        else if KAS_FILE_VERSION_MAJOR < leVal (sub f 8 2) then .error .versionTooNew
        else if leVal (sub f 16 8) < KAS_HEADER_SIZE then .error .badFileFormat
        else .ok (leVal (sub f 8 2), leVal (sub f 10 2), leVal (sub f 12 4),
          leVal (sub f 16 8)) := rfl

/-- Any strict truncation of a file accepted by a flags-0 open is rejected
as a format error, whichever flags the re-open uses. -/
theorem truncation_rejected {f : List Nat} {r : ReadResult}
    (hval : kastore_read 0 f = .ok r) {k : Nat} (hk : k < f.length) (flags : Nat) :
    kastore_read flags (f.take k) = .error .badFileFormat := by
  obtain ⟨hheader, hmmap, -, -, -⟩ := kastore_read_inv hval
  obtain ⟨hlen_eq, -⟩ := hmmap (by decide)
  obtain ⟨hf64, -, -, -, -, -, -, -⟩ := read_header_inv hheader
  have h64 : KAS_HEADER_SIZE = 64 := rfl
  have hklen : (f.take k).length = k := by
    rw [List.length_take]
    omega
  by_cases hk64 : k < KAS_HEADER_SIZE
  · refine kastore_read_of_header_error ?_
    rw [kastore_read_header_eq, if_pos (by rw [hklen]; exact hk64)]
  · have hh : kastore_read_header (f.take k) = kastore_read_header f := by
      refine read_header_congr (by rw [hklen]; omega) hf64 ?_
      intro p l hpl
      exact sub_take_of_le f k p l (by omega)
    rw [hheader] at hh
    refine kastore_read_of_buffer_error hh ?_
    unfold kastore_read_buffer
    by_cases hg : mmapGate flags
    · rw [if_pos hg]
      have hm : kastore_mmap_file (f.take k) r.file_size = .error .badFileFormat := by
        unfold kastore_mmap_file
        rw [if_pos (by rw [hklen]; omega)]
      rw [hm]
      rfl
    · rw [if_neg hg]
      have hm : kastore_read_file (f.take k) r.file_size = .error .badFileFormat := by
        unfold kastore_read_file
        rw [if_pos (by rw [hklen]; omega)]
      rw [hm]
      rfl

/-- Changing any one of the 8 magic bytes of an accepted file to a
different byte value makes every re-open fail with a format error. -/
theorem magic_flip_rejected {f : List Nat} {r : ReadResult}
    (hval : kastore_read 0 f = .ok r) {i : Nat} (hi : i < 8) {b : Nat}
    (hb : b % 256 ≠ KAS_MAGIC.getD i 0) (flags : Nat) :
    kastore_read flags (f.set i b) = .error .badFileFormat := by
  obtain ⟨hheader, -, -, -, -⟩ := kastore_read_inv hval
  obtain ⟨hf64, hmagic, -, -, -, -, -, -⟩ := read_header_inv hheader
  have h64 : KAS_HEADER_SIZE = 64 := rfl
  have hflen : i < f.length := by omega
  have hne : (sub (f.set i b) 0 8).map (· % 256) ≠ KAS_MAGIC := by
    intro heq
    have hq := congrArg (fun l : List Nat => l[i]?) heq
    simp only [sub, List.drop_zero, List.getElem?_map, List.getElem?_take, hi, if_pos,
      List.getElem?_set_self hflen] at hq
    have hmag : KAS_MAGIC[i]? = some (KAS_MAGIC.getD i 0) := by
      have hlen : i < KAS_MAGIC.length := by
        have : KAS_MAGIC.length = 8 := rfl
        omega
      rw [List.getD_eq_getElem?_getD, List.getElem?_eq_getElem hlen]
      rfl
    rw [hmag] at hq
    exact hb (Option.some.injEq .. ▸ hq)
  refine kastore_read_of_header_error ?_
  rw [kastore_read_header_eq, if_neg (by rw [List.length_set]; omega), if_pos hne]

/-- Raising the header major version of an accepted file is rejected as too
new, lowering it to zero as too old. -/
theorem major_change_rejected {f : List Nat} {r : ReadResult}
    (hval : kastore_read 0 f = .ok r) {m : Nat} (hm : m < 2 ^ 16) (flags : Nat) :
    (1 < m → kastore_read flags (overwrite f 8 (leBytes 2 m)) = .error .versionTooNew)
    ∧ (m = 0 → kastore_read flags (overwrite f 8 (leBytes 2 m)) = .error .versionTooOld) := by
  obtain ⟨hheader, -, -, -, -⟩ := kastore_read_inv hval
  obtain ⟨hf64, hmagic, -, -, -, -, -, -⟩ := read_header_inv hheader
  have h64 : KAS_HEADER_SIZE = 64 := rfl
  have hm1 : KAS_FILE_VERSION_MAJOR = 1 := rfl
  have hseglen : (leBytes 2 m).length = 2 := leBytes_length 2 m
  have hpos : 8 + (leBytes 2 m).length ≤ f.length := by omega
  have hlen : (overwrite f 8 (leBytes 2 m)).length = f.length := overwrite_length f _ 8 hpos
  have hmagic2 : sub (overwrite f 8 (leBytes 2 m)) 0 8 = sub f 0 8 :=
    sub_overwrite_before f _ 8 0 8 (by omega) (by omega)
  have hmaj : sub (overwrite f 8 (leBytes 2 m)) 8 2 = leBytes 2 m := by
    have h := sub_overwrite_at f (leBytes 2 m) 8 (by omega)
    rwa [hseglen] at h
  have hmval : leVal (leBytes 2 m) = m := by
    rw [leVal_leBytes]
    have h2 : (256 : Nat) ^ 2 = 2 ^ 16 := by norm_num
    rw [h2]
    exact Nat.mod_eq_of_lt hm
  constructor
  · intro h1m
    refine kastore_read_of_header_error ?_
    rw [kastore_read_header_eq, if_neg (by omega),
      if_neg (by rw [hmagic2]; simp [hmagic]), hmaj, hmval,
      if_neg (by omega), if_pos (by omega)]
  · intro h0m
    refine kastore_read_of_header_error ?_
    rw [kastore_read_header_eq, if_neg (by omega),
      if_neg (by rw [hmagic2]; simp [hmagic]), hmaj, hmval,
      if_pos (by omega)]

/-- The scalar fields of an item that the validation walks consult. -/
def scal (it : Kaitem) : Nat × Nat × Nat × Nat × Nat :=
  (it.type, it.key_start, it.key_len, it.array_start, it.array_len)

theorem parseDescriptor_congr {b1 b2 : List Nat} (hd : b1.drop 12 = b2.drop 12)
    {off : Nat} (hoff : 12 ≤ off) : parseDescriptor b1 off = parseDescriptor b2 off := by
  unfold parseDescriptor
  rw [sub_of_agree_drop b1 b2 12 off 1 hd hoff,
    sub_of_agree_drop b1 b2 12 (off + 8) 8 hd (by omega),
    sub_of_agree_drop b1 b2 12 (off + 16) 8 hd (by omega),
    sub_of_agree_drop b1 b2 12 (off + 24) 8 hd (by omega),
    sub_of_agree_drop b1 b2 12 (off + 32) 8 hd (by omega)]

theorem readItemsLoop_succ (buf : List Nat) (fs off m : Nat) :
    readItemsLoop buf fs off (m + 1)
      = (if KAS_NUM_TYPES ≤ (parseDescriptor buf off).type then .error .badType
        else if fs < m64 ((parseDescriptor buf off).key_start
            + (parseDescriptor buf off).key_len) then .error .badFileFormat
        else if fs < m64 ((parseDescriptor buf off).array_start
            + m64 ((parseDescriptor buf off).array_len
              * type_size (parseDescriptor buf off).type)) then .error .badFileFormat
        else
          match readItemsLoop buf fs (off + KAS_ITEM_DESCRIPTOR_SIZE) m with
          | .error e => .error e
          | .ok rest =>
            .ok ({ type := (parseDescriptor buf off).type,
                   key := sub buf (parseDescriptor buf off).key_start
                     (parseDescriptor buf off).key_len,
                   key_len := (parseDescriptor buf off).key_len,
                   array := sub buf (parseDescriptor buf off).array_start
                     ((parseDescriptor buf off).array_len
                       * type_size (parseDescriptor buf off).type),
                   array_len := (parseDescriptor buf off).array_len,
                   key_start := (parseDescriptor buf off).key_start,
                   array_start := (parseDescriptor buf off).array_start } :: rest)) := rfl

theorem readItemsLoop_congr {b1 b2 : List Nat} (hd : b1.drop 12 = b2.drop 12) (fs : Nat) :
    ∀ (n off : Nat), 12 ≤ off →
      match readItemsLoop b1 fs off n, readItemsLoop b2 fs off n with
      | .ok l1, .ok l2 => l1.map scal = l2.map scal
      | .error e1, .error e2 => e1 = e2
      | _, _ => False := by
  intro n
  induction n with
  | zero =>
    intro off hoff
    simp [readItemsLoop]
  | succ m ih =>
    intro off hoff
    have hp : parseDescriptor b1 off = parseDescriptor b2 off := parseDescriptor_congr hd hoff
    rw [readItemsLoop_succ, readItemsLoop_succ, hp]
    by_cases h1 : KAS_NUM_TYPES ≤ (parseDescriptor b2 off).type
    · rw [if_pos h1, if_pos h1]
    · rw [if_neg h1, if_neg h1]
      by_cases h2 : fs < m64 ((parseDescriptor b2 off).key_start
          + (parseDescriptor b2 off).key_len)
      · rw [if_pos h2, if_pos h2]
      · rw [if_neg h2, if_neg h2]
        by_cases h3 : fs < m64 ((parseDescriptor b2 off).array_start
            + m64 ((parseDescriptor b2 off).array_len
              * type_size (parseDescriptor b2 off).type))
        · rw [if_pos h3, if_pos h3]
        · rw [if_neg h3, if_neg h3]
          have hr := ih (off + KAS_ITEM_DESCRIPTOR_SIZE) (by
            have hdsz : KAS_ITEM_DESCRIPTOR_SIZE = 64 := rfl
            omega)
          rcases hl1 : readItemsLoop b1 fs (off + KAS_ITEM_DESCRIPTOR_SIZE) m with e1 | l1 <;>
            rcases hl2 : readItemsLoop b2 fs (off + KAS_ITEM_DESCRIPTOR_SIZE) m with e2 | l2 <;>
            rw [hl1, hl2] at hr
          · exact (hr : e1 = e2)
          · exact (hr : False).elim
          · exact (hr : False).elim
          · exact List.cons_eq_cons.mpr ⟨rfl, (hr : List.map scal l1 = List.map scal l2)⟩

theorem keyWalk_congr {l1 l2 : List Kaitem} (h : l1.map scal = l2.map scal) :
    ∀ off, keyWalk off l1 = keyWalk off l2 := by
  induction l1 generalizing l2 with
  | nil => cases l2 <;> simp_all
  | cons a as ih =>
    cases l2 with
    | nil => simp at h
    | cons b bs =>
      intro off
      simp only [List.map_cons, List.cons.injEq] at h
      have hs := h.1
      simp only [scal, Prod.mk.injEq] at hs
      unfold keyWalk
      rw [hs.2.1, hs.2.2.1, ih h.2]

theorem arrayWalk_congr {l1 l2 : List Kaitem} (h : l1.map scal = l2.map scal) :
    ∀ off, arrayWalk off l1 = arrayWalk off l2 := by
  induction l1 generalizing l2 with
  | nil => cases l2 <;> simp_all
  | cons a as ih =>
    cases l2 with
    | nil => simp at h
    | cons b bs =>
      intro off
      simp only [List.map_cons, List.cons.injEq] at h
      have hs := h.1
      simp only [scal, Prod.mk.injEq] at hs
      unfold arrayWalk
      rw [hs.1, hs.2.2.2.1, hs.2.2.2.2]
      simp only [ih h.2]

theorem descWalkCheck_congr {l1 l2 : List Kaitem} (h : l1.map scal = l2.map scal) (n : Nat) :
    match descWalkCheck n l1, descWalkCheck n l2 with
    | .ok a, .ok b => a.map scal = b.map scal
    | .error e1, .error e2 => e1 = e2
    | _, _ => False := by
  unfold descWalkCheck
  rw [keyWalk_congr h (KAS_HEADER_SIZE + n * KAS_ITEM_DESCRIPTOR_SIZE)]
  rcases hkw : keyWalk (KAS_HEADER_SIZE + n * KAS_ITEM_DESCRIPTOR_SIZE) l2 with e | off
  · rfl
  · simp only [arrayWalk_congr h]
    rcases haw : arrayWalk off l2 with e | fin
    · rfl
    · exact h

theorem read_descriptors_congr {b1 b2 : List Nat} (hd : b1.drop 12 = b2.drop 12) (n fs : Nat) :
    match kastore_read_descriptors b1 n fs, kastore_read_descriptors b2 n fs with
    | .ok l1, .ok l2 => l1.map scal = l2.map scal
    | .error e1, .error e2 => e1 = e2
    | _, _ => False := by
  unfold kastore_read_descriptors
  by_cases hb : fs < KAS_HEADER_SIZE + n * KAS_ITEM_DESCRIPTOR_SIZE
  · rw [if_pos hb, if_pos hb]
  · rw [if_neg hb, if_neg hb]
    have hloop := readItemsLoop_congr hd fs n KAS_HEADER_SIZE (by decide)
    rcases hl1 : readItemsLoop b1 fs KAS_HEADER_SIZE n with e1 | l1 <;>
      rcases hl2 : readItemsLoop b2 fs KAS_HEADER_SIZE n with e2 | l2 <;>
      rw [hl1, hl2] at hloop
    · exact (hloop : e1 = e2)
    · exact (hloop : False).elim
    · exact (hloop : False).elim
    · exact descWalkCheck_congr (hloop : List.map scal l1 = List.map scal l2) n

/-- Changing only the minor version field of an accepted file leaves the
file accepted, with any flags. -/
theorem minor_change_accepted {f : List Nat} {r : ReadResult}
    (hval : kastore_read 0 f = .ok r) {m : Nat} (flags : Nat) :
    ∃ r2, kastore_read flags (overwrite f 10 (leBytes 2 m)) = .ok r2 := by
  obtain ⟨hheader, hmmap, -, hdesc, hzero⟩ := kastore_read_inv hval
  obtain ⟨hlen_eq, hbuf_eq⟩ := hmmap (by decide)
  obtain ⟨hf64, hmagic, -, hmaj8, -, -, -, hfs64⟩ := read_header_inv hheader
  have h64 : KAS_HEADER_SIZE = 64 := rfl
  have hm1 : KAS_FILE_VERSION_MAJOR = 1 := rfl
  have hseglen : (leBytes 2 m).length = 2 := leBytes_length 2 m
  have hpos : 10 + (leBytes 2 m).length ≤ f.length := by omega
  have hgl : (overwrite f 10 (leBytes 2 m)).length = f.length := overwrite_length f _ 10 hpos
  have hsub08 : sub (overwrite f 10 (leBytes 2 m)) 0 8 = sub f 0 8 :=
    sub_overwrite_before f _ 10 0 8 (by omega) (by omega)
  have hsub82 : sub (overwrite f 10 (leBytes 2 m)) 8 2 = sub f 8 2 :=
    sub_overwrite_before f _ 10 8 2 (by omega) (by omega)
  have hsub124 : sub (overwrite f 10 (leBytes 2 m)) 12 4 = sub f 12 4 :=
    sub_overwrite_after f _ 10 12 4 (by omega) (by omega)
  have hsub168 : sub (overwrite f 10 (leBytes 2 m)) 16 8 = sub f 16 8 :=
    sub_overwrite_after f _ 10 16 8 (by omega) (by omega)
  obtain ⟨-, -, -, -, -, hn, hfs, -⟩ := read_header_inv hheader
  have hheaderg : kastore_read_header (overwrite f 10 (leBytes 2 m))
      = .ok (1, leVal (sub (overwrite f 10 (leBytes 2 m)) 10 2), r.num_items, r.file_size) := by
    rw [kastore_read_header_eq, if_neg (by omega),
      if_neg (by rw [hsub08]; simp [hmagic]), hsub82, hmaj8,
      if_neg (by omega), if_neg (by omega), hsub168, ← hfs, if_neg (by omega), hsub124, ← hn]
  have hglfs : (overwrite f 10 (leBytes 2 m)).length = r.file_size := by omega
  have hbufg : kastore_read_buffer flags (overwrite f 10 (leBytes 2 m)) r.file_size
      = .ok ((if mmapGate flags then Backing.mmapped else Backing.heap),
          overwrite f 10 (leBytes 2 m)) := by
    unfold kastore_read_buffer
    by_cases hg : mmapGate flags
    · rw [if_pos hg, if_pos hg, kastore_mmap_file_ok hglfs]
      rfl
    · rw [if_neg hg, if_neg hg, kastore_read_file_ok hglfs]
      rfl
  by_cases hn0 : 0 < r.num_items
  · have hdescf := hdesc hn0
    rw [hbuf_eq] at hdescf
    have hdrop : (overwrite f 10 (leBytes 2 m)).drop 12 = f.drop 12 := by
      have h := drop_overwrite_after f (leBytes 2 m) 10 (by omega)
      rwa [hseglen] at h
    have hcong := read_descriptors_congr hdrop r.num_items r.file_size
    rcases hg2 : kastore_read_descriptors (overwrite f 10 (leBytes 2 m)) r.num_items r.file_size
        with e | items2
    · rw [hg2, hdescf] at hcong
      exact (hcong : False).elim
    · have hread : kastore_read flags (overwrite f 10 (leBytes 2 m))
          = .ok { file_version := (1, leVal (sub (overwrite f 10 (leBytes 2 m)) 10 2)),
                  num_items := r.num_items, file_size := r.file_size,
                  backing := (if mmapGate flags then Backing.mmapped else Backing.heap),
                  buffer := overwrite f 10 (leBytes 2 m), items := items2 } := by
        rw [kastore_read_of_desc hheaderg hbufg hn0, hg2]
      exact ⟨_, hread⟩
  · have hz : r.num_items = 0 := by omega
    rw [hz] at hheaderg
    exact ⟨_, kastore_read_of_zero hheaderg hbufg⟩

/-- The observable outcome of a read-mode open: everything except which
backing was chosen. -/
def observe (e : Except KasErr ReadResult) :
    Except KasErr ((Nat × Nat) × Nat × Nat × List Nat × List Kaitem) :=
  match e with
  | .error e => .error e
  | .ok r => .ok (r.file_version, r.num_items, r.file_size, r.buffer, r.items)

/-- On any file whose actual length equals its header file_size field,
open behaves observably the same under every flags value: same error kind
or same parsed store. -/
theorem flags_observational_equiv (f : List Nat) (hlen : f.length = leVal (sub f 16 8))
    (flags1 flags2 : Nat) :
    observe (kastore_read flags1 f) = observe (kastore_read flags2 f) := by
  rcases hh : kastore_read_header f with e | v
  · rw [kastore_read_of_header_error hh, kastore_read_of_header_error hh]
  · obtain ⟨mj, mn, n, fs⟩ := v
    have hfs : fs = leVal (sub f 16 8) := (read_header_inv hh).2.2.2.2.2.2.1
    have hflen : f.length = fs := by rw [hlen, hfs]
    have hbuf : ∀ fl, kastore_read_buffer fl f fs
        = .ok ((if mmapGate fl then Backing.mmapped else Backing.heap), f) := by
      intro fl
      unfold kastore_read_buffer
      by_cases hg : mmapGate fl
      · rw [if_pos hg, if_pos hg, kastore_mmap_file_ok hflen]
        rfl
      · rw [if_neg hg, if_neg hg, kastore_read_file_ok hflen]
        rfl
    by_cases hn : 0 < n
    · rw [kastore_read_of_desc hh (hbuf flags1) hn, kastore_read_of_desc hh (hbuf flags2) hn]
      rcases hd : kastore_read_descriptors f n fs with e | items
      · rfl
      · rfl
    · have hn0 : n = 0 := by omega
      subst hn0
      rw [kastore_read_of_zero hh (hbuf flags1), kastore_read_of_zero hh (hbuf flags2)]
      rfl

theorem arrayStartsOk_aligned : ∀ {off : Nat} {l : List Kaitem}, arrayStartsOk off l →
    ∀ it ∈ l, it.array_start % KAS_ARRAY_ALIGN = 0 := by
  intro off l
  induction l generalizing off with
  | nil => intro _ it hit; cases hit
  | cons hd rest ih =>
    intro h it hit
    obtain ⟨h1, h2⟩ := h
    rcases List.mem_cons.mp hit with rfl | hmem
    · rw [h1]
      exact alignUp_mod _
    · exact ih h2 it hmem

/-- The full write-then-reopen scenario: issue a sequence of valid put calls
with distinct keys on a fresh write-mode store, close it (which flushes the
serialized file), and re-open that file with any flags.  Collects everything
the round-trip claims need: every put succeeded, the flushed bytes, the
accepted re-open, the multiset of data, the sort order, and both directions
of lookup. -/
theorem roundtrip_toolkit (calls : List PutCall) (flags rflags : Nat)
    (hval : ∀ c ∈ calls, ValidCall c)
    (hdist : calls.Pairwise (fun a b => a.key ≠ b.key))
    (hn : calls.length < 2 ^ 32)
    (hfs : fsizeOf (calls.map callItem) < 2 ^ 64) :
    putAllOk (writeStore flags) calls
    ∧ (putAll (writeStore flags) calls).itemsL = calls.map callItem
    ∧ (kastore_close (putAll (writeStore flags) calls)).flushed
        = some (kastore_write_file (calls.map callItem))
    ∧ ∃ r : ReadResult,
        kastore_read rflags (kastore_write_file (calls.map callItem)) = .ok r
        ∧ r.items = packedOf (calls.map callItem)
        ∧ (r.items.map itemData).Perm (calls.map callData)
        ∧ sortedItems r.items
        ∧ (∀ c ∈ calls, kastore_get (openedStore rflags r) c.key
            = .ok (c.array, c.array_len, c.type.toNat))
        ∧ (∀ k, (∀ c ∈ calls, c.key ≠ k) →
            kastore_get (openedStore rflags r) k = .error .keyNotFound) := by
  obtain ⟨hok, hitems⟩ := putAll_spec calls (writeStore flags) hval hdist
    (fun c _ it hit => absurd hit (List.not_mem_nil it))
  have hitemsL : (putAll (writeStore flags) calls).itemsL = calls.map callItem := by
    simpa using hitems
  have hmode := (putAll_preserves calls (writeStore flags)).1
  have hopen := (putAll_preserves calls (writeStore flags)).2.2.1
  have hflush : (kastore_close (putAll (writeStore flags) calls)).flushed
      = some (kastore_write_file (calls.map callItem)) := by
    show (if (putAll (writeStore flags) calls).mode = KAS_WRITE
          ∧ (putAll (writeStore flags) calls).file_open then
        some (kastore_write_file ((putAll (writeStore flags) calls).itemsL)) else none)
      = some (kastore_write_file (calls.map callItem))
    rw [if_pos ⟨hmode, hopen⟩, hitemsL]
  have hwf : ∀ it ∈ calls.map callItem, WFItem it := by
    intro it hit
    obtain ⟨c, hc, rfl⟩ := List.mem_map.mp hit
    exact callItem_WF c (hval c hc)
  have hlen32 : (calls.map callItem).length < 2 ^ 32 := by simpa using hn
  have hread := read_of_write (calls.map callItem) rflags hwf hlen32 hfs
  have hperm := List.mergeSort_perm (calls.map callItem) itemLe
  have hcore : (packedOf (calls.map callItem)).map Kaitem.core
      = ((calls.map callItem).mergeSort itemLe).map Kaitem.core :=
    pack_items_core ((calls.map callItem).mergeSort itemLe)
  have hkeys : (packedOf (calls.map callItem)).map (·.key)
      = ((calls.map callItem).mergeSort itemLe).map (·.key) := keys_of_core hcore
  have hcallskeys : (calls.map callItem).map (·.key) = calls.map (·.key) := by
    rw [List.map_map]
    rfl
  have hpw : (packedOf (calls.map callItem)).Pairwise (fun a b => a.key ≠ b.key) := by
    have h0 : (calls.map (·.key)).Pairwise (fun a b : List Nat => a ≠ b) :=
      List.pairwise_map.mpr hdist
    have h1 : (((calls.map callItem).mergeSort itemLe).map (·.key)).Pairwise
        (fun a b : List Nat => a ≠ b) := by
      refine (List.Perm.pairwise_iff ?_ (hperm.map (·.key))).mpr ?_
      · exact fun h => Ne.symm h
      · rw [hcallskeys]
        exact h0
    have h2 : ((packedOf (calls.map callItem)).map (·.key)).Pairwise
        (fun a b : List Nat => a ≠ b) := by
      rw [hkeys]
      exact h1
    exact List.pairwise_map.mp h2
  have hsorted : sortedItems (packedOf (calls.map callItem)) :=
    sortedItems_of_keys hkeys (mergeSort_sortedItems _)
  have hpermData : ((packedOf (calls.map callItem)).map itemData).Perm (calls.map callData) := by
    rw [itemData_of_core hcore, ← calls_map_itemData]
    exact hperm.map itemData
  refine ⟨hok, hitemsL, hflush, ⟨_, hread, rfl, hpermData, hsorted, ?_, ?_⟩⟩
  · intro c hc
    have hmem1 : callItem c ∈ (calls.map callItem).mergeSort itemLe :=
      hperm.mem_iff.mpr (List.mem_map_of_mem callItem hc)
    obtain ⟨a, ha, hacore⟩ := mem_of_core hcore hmem1
    have hf : a.type = c.type.toNat ∧ a.key = c.key ∧ a.array = c.array
        ∧ a.array_len = c.array_len := by
      have h := hacore
      simp only [Kaitem.core, callItem, Prod.mk.injEq] at h
      exact ⟨h.1, h.2.1, h.2.2.2.1, h.2.2.2.2⟩
    refine Eq.trans (kastore_get_found _ a c.key hpw ha hf.2.1) ?_
    rw [hf.1, hf.2.2.1, hf.2.2.2]
  · intro k hk
    refine kastore_get_missing _ k ?_
    intro it hit
    have hit2 : it ∈ packedOf (calls.map callItem) := hit
    have hkmem : it.key ∈ (packedOf (calls.map callItem)).map (·.key) :=
      List.mem_map_of_mem _ hit2
    rw [hkeys] at hkmem
    have hkmem2 : it.key ∈ (calls.map callItem).map (·.key) := (hperm.map _).mem_iff.mp hkmem
    rw [hcallskeys] at hkmem2
    obtain ⟨c, hc, hck⟩ := List.mem_map.mp hkmem2
    rw [← hck]
    exact hk c hc

/-- Decidable equality for the result type of fallible calls, so that
concrete runs of the embedded code can be checked by evaluation. -/
instance exceptDecEq {ε α : Type} [DecidableEq ε] [DecidableEq α] : DecidableEq (Except ε α)
  | .error a, .error b =>
    if h : a = b then .isTrue (congrArg Except.error h)
    else .isFalse (fun he => h (Except.error.inj he))
  | .error _, .ok _ => .isFalse (fun he => Except.noConfusion he)
  | .ok _, .error _ => .isFalse (fun he => Except.noConfusion he)
  | .ok a, .ok b =>
    if h : a = b then .isTrue (congrArg Except.ok h)
    else .isFalse (fun he => h (Except.ok.inj he))

theorem packedOf_nil : packedOf [] = [] := by
  unfold packedOf
  rw [List.mergeSort_nil]
  rfl

theorem fsizeOf_nil : fsizeOf [] = 64 := by
  unfold fsizeOf
  rw [List.mergeSort_nil]
  rfl

/-- The file flushed for an empty store is the bare 64-byte header. -/
theorem write_file_nil : kastore_write_file [] = headerBytes 0 64 := by
  rw [kastore_write_file_eq, packedOf_nil, fsizeOf_nil]
  simp [fileBytes, arraysBytes]

theorem fsizeOf_singleton (it : Kaitem) : fsizeOf [it] = (kastore_pack_items [it]).2 := by
  unfold fsizeOf
  rw [List.mergeSort_singleton]

/-- A 128-byte file: header with num_items = 1 and file_size = 128, then
one descriptor with key_start = 128 and key_len = 2 ^ 64 - 123, whose
64-bit sum wraps to 5. -/
def c3file : List Nat :=
  headerBytes 1 128
    ++ ((0 :: List.replicate 7 0) ++ leBytes 8 128 ++ leBytes 8 (2 ^ 64 - 123)
      ++ leBytes 8 8 ++ leBytes 8 0 ++ List.replicate 24 0)

/-- A 200-byte file whose two keys are stored in the order "b", "a":
descending, violating the section 4.2 sort order, with offsets that satisfy
every check the reader makes. -/
def c6file : List Nat :=
  headerBytes 2 200
    ++ ((0 :: List.replicate 7 0) ++ leBytes 8 192 ++ leBytes 8 1
      ++ leBytes 8 200 ++ leBytes 8 0 ++ List.replicate 24 0)
    ++ ((0 :: List.replicate 7 0) ++ leBytes 8 193 ++ leBytes 8 1
      ++ leBytes 8 200 ++ leBytes 8 0 ++ List.replicate 24 0)
    ++ [98, 97] ++ List.replicate 6 0

/-- The one item of c3file as the reader parses it. -/
def c3item : Kaitem :=
  { type := 0, key := [], key_len := 2 ^ 64 - 123, array := [], array_len := 0,
    key_start := 128, array_start := 8 }

/-- The accepted parse of c3file. -/
def c3result : ReadResult :=
  { file_version := (1, 0), num_items := 1, file_size := 128, backing := .mmapped,
    buffer := c3file, items := [c3item] }

/-- First parsed item of c6file: key "b". -/
def c6item1 : Kaitem :=
  { type := 0, key := [98], key_len := 1, array := [], array_len := 0,
    key_start := 192, array_start := 200 }

/-- Second parsed item of c6file: key "a", out of order. -/
def c6item2 : Kaitem :=
  { type := 0, key := [97], key_len := 1, array := [], array_len := 0,
    key_start := 193, array_start := 200 }

/-- The accepted parse of c6file, with its descending keys. -/
def c6result : ReadResult :=
  { file_version := (1, 0), num_items := 2, file_size := 200, backing := .mmapped,
    buffer := c6file, items := [c6item1, c6item2] }

/-- The parse of the empty store's file with the given backing. -/
def emptyFileOk (b : Backing) : ReadResult :=
  { file_version := (1, 0), num_items := 0, file_size := 64, backing := b,
    buffer := headerBytes 0 64, items := [] }

/-- A well-formed single item: key "a", one uint8 payload byte. -/
def kexItem : Kaitem :=
  { type := 0, key := [97], key_len := 1, array := [5], array_len := 1 }

/-- A store open for reading, as a put target. -/
def c7rstore : Kastore := { mode := KAS_READ, file_open := true, items := some [] }

/-- A store open for writing holding one item, as a get target. -/
def c7wstore : Kastore :=
  { mode := KAS_WRITE, file_open := true,
    items := some [{ key := [97], key_len := 1, array := [5], array_len := 5 }] }

/-- C1: round trip.  For any non-empty sequence of valid put calls with
pairwise-distinct keys on a fresh write-mode store, every put succeeds,
close flushes the serialized file, and re-opening that file (any flags)
succeeds with the same (key, type, array, length) data up to permutation;
get on each stored key returns the original array bytes with their element
count and type, and get on any non-stored key returns KeyNotFound. -/
theorem claim_C1 (calls : List PutCall) (flags rflags : Nat)
    (_hne : calls ≠ [])
    (hval : ∀ c ∈ calls, ValidCall c)
    (hdist : calls.Pairwise (fun a b => a.key ≠ b.key))
    (hn : calls.length < 2 ^ 32)
    (hfs : fsizeOf (calls.map callItem) < 2 ^ 64) :
    putAllOk (writeStore flags) calls
    ∧ (kastore_close (putAll (writeStore flags) calls)).flushed
        = some (kastore_write_file (calls.map callItem))
    ∧ ∃ r : ReadResult,
        kastore_read rflags (kastore_write_file (calls.map callItem)) = .ok r
        ∧ (r.items.map itemData).Perm (calls.map callData)
        ∧ (∀ c ∈ calls, kastore_get (openedStore rflags r) c.key
            = .ok (c.array, c.array_len, c.type.toNat))
        ∧ (∀ k, (∀ c ∈ calls, c.key ≠ k) →
            kastore_get (openedStore rflags r) k = .error .keyNotFound) := by
  obtain ⟨h1, -, h3, r, h4, -, h6, -, h8, h9⟩ :=
    roundtrip_toolkit calls flags rflags hval hdist hn hfs
  exact ⟨h1, h3, r, h4, h6, h8, h9⟩

/-- C1 witness at one concrete call: key "a" (byte 97), a one-byte uint8
payload. -/
theorem claim_C1_witness :
    putAllOk (writeStore 0) [⟨[97], [5], 1, 0⟩]
    ∧ (kastore_close (putAll (writeStore 0) [⟨[97], [5], 1, 0⟩])).flushed
        = some (kastore_write_file ([⟨[97], [5], 1, 0⟩].map callItem))
    ∧ ∃ r : ReadResult,
        kastore_read 0 (kastore_write_file ([⟨[97], [5], 1, 0⟩].map callItem)) = .ok r
        ∧ (r.items.map itemData).Perm ([⟨[97], [5], 1, 0⟩].map callData)
        ∧ (∀ c ∈ [(⟨[97], [5], 1, 0⟩ : PutCall)], kastore_get (openedStore 0 r) c.key
            = .ok (c.array, c.array_len, c.type.toNat))
        ∧ (∀ k, (∀ c ∈ [(⟨[97], [5], 1, 0⟩ : PutCall)], c.key ≠ k) →
            kastore_get (openedStore 0 r) k = .error .keyNotFound) :=
  claim_C1 [⟨[97], [5], 1, 0⟩] 0 0 (by decide)
    (by
      intro c hc
      rw [List.mem_singleton] at hc
      subst hc
      exact ⟨by decide, by decide, by decide, by decide, by decide, by decide⟩)
    (by simp)
    (by decide)
    (by
      show fsizeOf [callItem ⟨[97], [5], 1, 0⟩] < 2 ^ 64
      rw [fsizeOf_singleton]
      decide)

/-- C2: layout.  The packer places the first key at
KAS_HEADER_SIZE + N * KAS_ITEM_DESCRIPTOR_SIZE with keys tightly packed,
places each array at the running offset rounded up to a multiple of 8 (so
every array_start is 8-aligned), and the computed file_size is the final
offset and equals the written file's length; conversely any accepted read
has descriptors whose key_start and array_start equal the recomputed
packing walk exactly. -/
theorem claim_C2 (items : List Kaitem) :
    keyStartsOk (KAS_HEADER_SIZE + (packedOf items).length * KAS_ITEM_DESCRIPTOR_SIZE)
      (packedOf items)
    ∧ arrayStartsOk
        (keysEnd (KAS_HEADER_SIZE + (packedOf items).length * KAS_ITEM_DESCRIPTOR_SIZE)
          (packedOf items)) (packedOf items)
    ∧ (∀ it ∈ packedOf items, it.array_start % KAS_ARRAY_ALIGN = 0)
    ∧ fsizeOf items
        = arraysEnd
            (keysEnd (KAS_HEADER_SIZE + (packedOf items).length * KAS_ITEM_DESCRIPTOR_SIZE)
              (packedOf items)) (packedOf items)
    ∧ ((∀ it ∈ items, WFItem it) → (kastore_write_file items).length = fsizeOf items)
    ∧ (∀ (buf : List Nat) (n fs : Nat) (its : List Kaitem),
        kastore_read_descriptors buf n fs = .ok its →
          its.map (·.key_start)
              = walkKeyStarts (KAS_HEADER_SIZE + n * KAS_ITEM_DESCRIPTOR_SIZE) its
          ∧ its.map (·.array_start)
              = walkArrayStarts
                  (walkKeyEnd (KAS_HEADER_SIZE + n * KAS_ITEM_DESCRIPTOR_SIZE) its) its) := by
  refine ⟨pack_items_keyStartsOk (items.mergeSort itemLe),
    pack_items_arrayStartsOk (items.mergeSort itemLe), ?_,
    pack_items_fsize (items.mergeSort itemLe), ?_, ?_⟩
  · exact fun it hit =>
      arrayStartsOk_aligned (pack_items_arrayStartsOk (items.mergeSort itemLe)) it hit
  · intro hwf
    have hperm := List.mergeSort_perm items itemLe
    have hwfS : ∀ it ∈ items.mergeSort itemLe, WFItem it :=
      fun it h => hwf it (hperm.mem_iff.mp h)
    have hcore : (packedOf items).map Kaitem.core
        = (items.mergeSort itemLe).map Kaitem.core := pack_items_core (items.mergeSort itemLe)
    have hwfp : ∀ it ∈ packedOf items, WFItem it := wf_of_core hcore hwfS
    rw [kastore_write_file_eq]
    exact fileBytes_length (packedOf items) (fsizeOf items)
      (pack_items_keyStartsOk (items.mergeSort itemLe))
      (pack_items_arrayStartsOk (items.mergeSort itemLe))
      (pack_items_fsize (items.mergeSort itemLe))
      (fun it h => (hwfp it h).key_len_eq) (fun it h => (hwfp it h).array_len_eq)
  · intro buf n fs its h
    obtain ⟨off, fin, hkw, haw⟩ := read_descriptors_inv h
    obtain ⟨hks, hoff⟩ := keyWalk_ok_elim hkw
    subst hoff
    exact ⟨hks, arrayWalk_ok_elim haw⟩

set_option maxRecDepth 1000000 in
/-- C3: the reader's descriptor bound checks are done in wrapping 64-bit
arithmetic, not exact integers.  This 128-byte file declares
key_len = 2 ^ 64 - 123, so the true key_start + key_len far exceeds
file_size = 128, yet the open is accepted because the 64-bit sum wraps
to 5. -/
theorem claim_C3 :
    ∃ r, kastore_read 0 c3file = .ok r
      ∧ ∃ it ∈ r.items, r.file_size < it.key_start + it.key_len
        ∧ m64 (it.key_start + it.key_len) ≤ r.file_size := by
  refine ⟨c3result, ?_, ?_⟩
  · decide
  · exact ⟨c3item, List.mem_singleton_self _, by decide, by decide⟩

/-- C4: the mmap gate of kastore_read is written (!flags & KAS_NO_MMAP),
so the file is mapped exactly when flags = 0; with flags = 2 the
KAS_NO_MMAP bit is clear, yet the open reads the file into a heap buffer
instead of mapping it. -/
theorem claim_C4 :
    2 &&& KAS_NO_MMAP = 0
    ∧ (∀ flags : Nat, mmapGate flags = true ↔ flags = 0)
    ∧ ∃ r, kastore_read 2 (kastore_write_file []) = .ok r
        ∧ r.backing = Backing.heap := by
  refine ⟨by decide, ?_, ?_⟩
  · intro flags
    constructor
    · intro hg
      by_contra h
      have h1 : cBoolNot flags = 0 := by
        unfold cBoolNot
        rw [if_neg h]
      unfold mmapGate at hg
      rw [h1] at hg
      exact absurd (of_decide_eq_true hg) (by decide)
    · intro h0
      subst h0
      decide
  · refine ⟨emptyFileOk .heap, ?_, rfl⟩
    rw [write_file_nil]
    decide

/-- C5: refinement of the no-mmap flag, on the files where it holds.  On
any file whose length equals the header's file_size field, opening with
and without the flag (indeed with any two flag values) is observationally
identical: the same error kind, or the same parsed store.  Unrestricted
equivalence is false: a file with trailing bytes is rejected by the mmap
path but accepted by the heap path. -/
theorem claim_C5 (f : List Nat) (hlen : f.length = leVal (sub f 16 8)) (flags1 flags2 : Nat) :
    observe (kastore_read flags1 f) = observe (kastore_read flags2 f) :=
  flags_observational_equiv f hlen flags1 flags2

/-- C5 witness: the empty store's 64-byte file, mmap path (flags 0)
against heap path (KAS_NO_MMAP). -/
theorem claim_C5_witness :
    (kastore_write_file []).length = leVal (sub (kastore_write_file []) 16 8)
    ∧ observe (kastore_read 0 (kastore_write_file []))
        = observe (kastore_read KAS_NO_MMAP (kastore_write_file [])) :=
  ⟨by rw [write_file_nil]; decide,
   claim_C5 (kastore_write_file []) (by rw [write_file_nil]; decide) 0 KAS_NO_MMAP⟩

/-- C5 counterexample: the empty store's file with one trailing byte is
accepted by the heap path (KAS_NO_MMAP set) but rejected by the mmap path
(flags 0), so the two openings are observably different. -/
theorem claim_C5_counterexample :
    kastore_read KAS_NO_MMAP (kastore_write_file [] ++ [0]) = .ok (emptyFileOk .heap)
    ∧ kastore_read 0 (kastore_write_file [] ++ [0]) = .error .badFileFormat := by
  rw [write_file_nil]
  exact ⟨by decide, by decide⟩

/-- C6: sort order.  The reader itself never checks key order (the
counterexample exhibits an accepted file with descending keys), but every
file the writer produces reads back with items sorted ascending under the
section 4.2 key order. -/
theorem claim_C6 (items : List Kaitem) (flags : Nat)
    (hwf : ∀ it ∈ items, WFItem it)
    (hn : items.length < 2 ^ 32)
    (hfs : fsizeOf items < 2 ^ 64) :
    sortedItems (readItems (kastore_read flags (kastore_write_file items))) := by
  rw [read_of_write items flags hwf hn hfs]
  show sortedItems (packedOf items)
  have hcore : (packedOf items).map Kaitem.core
      = (items.mergeSort itemLe).map Kaitem.core := pack_items_core (items.mergeSort itemLe)
  exact sortedItems_of_keys (keys_of_core hcore) (mergeSort_sortedItems items)

/-- C6 witness at one single-item store. -/
theorem claim_C6_witness :
    (∀ it ∈ [kexItem], WFItem it)
    ∧ sortedItems (readItems (kastore_read 0 (kastore_write_file [kexItem]))) := by
  have hwf : ∀ it ∈ [kexItem], WFItem it := by
    intro it hit
    rw [List.mem_singleton] at hit
    subst hit
    exact ⟨by decide, by decide, by decide, by decide, by decide, by decide⟩
  refine ⟨hwf, claim_C6 [kexItem] 0 hwf (by decide) ?_⟩
  rw [fsizeOf_singleton]
  decide

set_option maxRecDepth 1000000 in
/-- C6 counterexample: a file whose serialized keys are in descending
order ("b" before "a") passes every reader check and is accepted, with
items not sorted under the section 4.2 order. -/
theorem claim_C6_counterexample :
    kastore_read 0 c6file = .ok c6result ∧ ¬ sortedItems c6result.items := by
  exact ⟨by decide, by decide⟩

/-- C7: neither kastore_put nor kastore_get consults the store's mode (the
counterexample shows put succeeding on a read-mode store and get on a
write-mode store).  What does hold: both calls behave identically under
every mode, the result state differing only in that very mode field. -/
theorem claim_C7 :
    (∀ (s : Kastore) (m : Nat) (k a : List Nat) (al : Nat) (t : Int),
      (kastore_put { s with mode := m } k a al t).1 = (kastore_put s k a al t).1
      ∧ (kastore_put { s with mode := m } k a al t).2
          = { (kastore_put s k a al t).2 with mode := m })
    ∧ (∀ (s : Kastore) (m : Nat) (k : List Nat),
        kastore_get { s with mode := m } k = kastore_get s k) := by
  constructor
  · intro s m k a al t
    have hit : ({ s with mode := m } : Kastore).itemsL = s.itemsL := rfl
    simp only [kastore_put, hit]
    split_ifs <;> exact ⟨rfl, rfl⟩
  · intro s m k
    rfl

/-- C7 counterexample: put succeeds on a store open in read mode, and get
succeeds on a store open in write mode; neither returns the error the spec
requires for a wrong-mode call. -/
theorem claim_C7_counterexample :
    (kastore_put c7rstore [97] [5] 5 0).1 = none
    ∧ kastore_get c7wstore [97] = .ok ([5], 5, 0) := by
  exact ⟨by decide, by decide⟩

/-- C8: kastore_put rejects a type tag outside 0..7 with BadType, an empty
key with EmptyKey, and a key equal to an already stored one with
DuplicateKey, each time leaving the store exactly as it was; consequently
the first value put under a key is still recoverable through close and
reopen after a later DuplicateKey rejection. -/
theorem claim_C8 :
    (∀ (s : Kastore) (k a : List Nat) (al : Nat) (t : Int),
      (t < 0 ∨ (KAS_NUM_TYPES : Int) ≤ t) → kastore_put s k a al t = (some .badType, s))
    ∧ (∀ (s : Kastore) (a : List Nat) (al : Nat) (t : Int),
      ¬(t < 0 ∨ (KAS_NUM_TYPES : Int) ≤ t) → kastore_put s [] a al t = (some .emptyKey, s))
    ∧ (∀ (s : Kastore) (k a : List Nat) (al : Nat) (t : Int),
      ¬(t < 0 ∨ (KAS_NUM_TYPES : Int) ≤ t) → k ≠ [] →
      (∃ it ∈ s.itemsL, it.key = k) →
      kastore_put s k a al t = (some .duplicateKey, s))
    ∧ (∀ (calls : List PutCall) (flags : Nat) (c c2 : PutCall),
      (∀ d ∈ calls, ValidCall d) → calls.Pairwise (fun a b => a.key ≠ b.key) →
      calls.length < 2 ^ 32 → fsizeOf (calls.map callItem) < 2 ^ 64 →
      c ∈ calls → c2.key = c.key → ¬(c2.type < 0 ∨ (KAS_NUM_TYPES : Int) ≤ c2.type) →
      kastore_put (putAll (writeStore flags) calls) c2.key c2.array c2.array_len c2.type
          = (some .duplicateKey, putAll (writeStore flags) calls)
      ∧ ∃ r : ReadResult,
          kastore_read flags (kastore_write_file
            ((putAll (writeStore flags) calls).itemsL)) = .ok r
          ∧ kastore_get (openedStore flags r) c.key
              = .ok (c.array, c.array_len, c.type.toNat)) := by
  have hput3 : ∀ (s : Kastore) (k a : List Nat) (al : Nat) (t : Int),
      ¬(t < 0 ∨ (KAS_NUM_TYPES : Int) ≤ t) → k ≠ [] →
      (∃ it ∈ s.itemsL, it.key = k) →
      kastore_put s k a al t = (some .duplicateKey, s) := by
    intro s k a al t ht hk hdup
    have hany : (s.itemsL.any fun it =>
        compare_items { type := t.toNat, key := k, key_len := k.length, array := a, array_len := al } it = 0) = true := by
      rw [List.any_eq_true]
      obtain ⟨it, hit, hitk⟩ := hdup
      refine ⟨it, hit, ?_⟩
      simp only [decide_eq_true_eq]
      rw [compare_items_eq_zero_iff]
      exact hitk.symm
    simp only [kastore_put]
    rw [if_neg ht, if_neg (by rw [List.length_eq_zero]; exact hk), if_pos hany]
  refine ⟨?_, ?_, hput3, ?_⟩
  · intro s k a al t h
    unfold kastore_put
    rw [if_pos h]
  · intro s a al t h
    unfold kastore_put
    rw [if_neg h, if_pos (show ([] : List Nat).length = 0 from rfl)]
  · intro calls flags c c2 hval hdist hn hfs hc hkey ht
    obtain ⟨-, hitemsL, -, r, hread, -, -, -, hfound, -⟩ :=
      roundtrip_toolkit calls flags flags hval hdist hn hfs
    constructor
    · refine hput3 _ c2.key c2.array c2.array_len c2.type ht ?_ ?_
      · rw [hkey]
        exact (hval c hc).key_ne
      · rw [hitemsL]
        exact ⟨callItem c, List.mem_map_of_mem callItem hc, hkey.symm⟩
    · rw [hitemsL]
      exact ⟨r, hread, hfound c hc⟩

/-- C8 witness: each rejection at a concrete store, and the duplicate
attempt after one successful put with the first value still recoverable. -/
theorem claim_C8_witness :
    kastore_put {} [97] [] 0 9 = (some KasErr.badType, ({} : Kastore))
    ∧ kastore_put {} [] [] 0 3 = (some KasErr.emptyKey, ({} : Kastore))
    ∧ kastore_put { items := some [{ key := [107], key_len := 1 }] } [107] [1] 1 0
        = (some KasErr.duplicateKey, { items := some [{ key := [107], key_len := 1 }] })
    ∧ (kastore_put (putAll (writeStore 0) [⟨[97], [5], 1, 0⟩]) [97] [9] 1 0
          = (some KasErr.duplicateKey, putAll (writeStore 0) [⟨[97], [5], 1, 0⟩])
        ∧ ∃ r : ReadResult,
          kastore_read 0 (kastore_write_file
              ((putAll (writeStore 0) [⟨[97], [5], 1, 0⟩]).itemsL)) = .ok r
          ∧ kastore_get (openedStore 0 r) [97] = .ok ([5], 1, 0)) := by
  refine ⟨claim_C8.1 {} [97] [] 0 9 (by decide),
    claim_C8.2.1 {} [] 0 3 (by decide),
    claim_C8.2.2.1 { items := some [{ key := [107], key_len := 1 }] } [107] [1] 1 0
      (by decide) (by decide) ⟨{ key := [107], key_len := 1 }, by decide, rfl⟩,
    ?_⟩
  exact claim_C8.2.2.2 [⟨[97], [5], 1, 0⟩] 0 ⟨[97], [5], 1, 0⟩ ⟨[97], [9], 1, 0⟩
    (by
      intro d hd
      rw [List.mem_singleton] at hd
      subst hd
      exact ⟨by decide, by decide, by decide, by decide, by decide, by decide⟩)
    (by simp)
    (by decide)
    (by
      show fsizeOf [callItem ⟨[97], [5], 1, 0⟩] < 2 ^ 64
      rw [fsizeOf_singleton]
      decide)
    (List.mem_singleton.mpr rfl)
    rfl
    (by decide)

/-- C9: rejection.  For any file accepted by a flags-0 open: every strict
truncation fails with BadFileFormat; changing any of the 8 magic bytes
fails with BadFileFormat; raising the major version fails with
VersionTooNew and lowering it to zero with VersionTooOld; changing only
the minor version is still accepted. -/
theorem claim_C9 {f : List Nat} {r : ReadResult}
    (hval : kastore_read 0 f = .ok r) (flags : Nat) :
    (∀ k, k < f.length → kastore_read flags (f.take k) = .error .badFileFormat)
    ∧ (∀ i, i < 8 → ∀ b, b % 256 ≠ KAS_MAGIC.getD i 0 →
        kastore_read flags (f.set i b) = .error .badFileFormat)
    ∧ (∀ m, m < 2 ^ 16 → 1 < m →
        kastore_read flags (overwrite f 8 (leBytes 2 m)) = .error .versionTooNew)
    ∧ kastore_read flags (overwrite f 8 (leBytes 2 0)) = .error .versionTooOld
    ∧ (∀ m, ∃ r2, kastore_read flags (overwrite f 10 (leBytes 2 m)) = .ok r2) :=
  ⟨fun k hk => truncation_rejected hval hk flags,
   fun i hi b hb => magic_flip_rejected hval hi hb flags,
   fun m hm h1m => (major_change_rejected hval hm flags).1 h1m,
   (major_change_rejected hval (show (0 : Nat) < 2 ^ 16 by norm_num) flags).2 rfl,
   fun m => minor_change_accepted hval flags⟩

/-- C9 witness on the empty store's file: one truncation, one magic flip,
major raised to 2, major lowered to 0, minor changed to 7. -/
theorem claim_C9_witness :
    kastore_read 0 ((kastore_write_file []).take 32) = .error .badFileFormat
    ∧ kastore_read 0 ((kastore_write_file []).set 0 0) = .error .badFileFormat
    ∧ kastore_read 0 (overwrite (kastore_write_file []) 8 (leBytes 2 2))
        = .error .versionTooNew
    ∧ kastore_read 0 (overwrite (kastore_write_file []) 8 (leBytes 2 0))
        = .error .versionTooOld
    ∧ ∃ r2, kastore_read 0 (overwrite (kastore_write_file []) 10 (leBytes 2 7)) = .ok r2 := by
  have hval : kastore_read 0 (kastore_write_file []) = .ok (emptyFileOk .mmapped) := by
    rw [write_file_nil]
    decide
  have h := claim_C9 hval 0
  exact ⟨h.1 32 (by rw [write_file_nil]; decide),
    h.2.1 0 (by decide) 0 (by decide),
    h.2.2.1 2 (by decide) (by decide),
    h.2.2.2.1,
    h.2.2.2.2 7⟩

/-- C10: idempotent close.  Closing a freshly zeroed store flushes
nothing, frees and unmaps nothing, closes no file, returns success and
leaves the zeroed state; every close leaves the zeroed state behind, so a
second close is that same no-op. -/
theorem claim_C10 :
    kastore_close {}
      = { ret := none, final := {}, flushed := none, freed_items := false,
          unmapped := false, freed_buffer := false, closed_file := false }
    ∧ (∀ s : Kastore, (kastore_close s).final = {})
    ∧ (∀ s : Kastore, kastore_close ((kastore_close s).final) = kastore_close {}) :=
  ⟨by decide, fun _ => rfl, fun _ => rfl⟩

end Kas
